import Mathlib

/-! Spectrum visualizer (`src/visuals.c`)

A shallow embedding of the functions of `visuals.c` and the properties of
them that the specification states.

Conventions of the embedding:

* a C `float` is an exact rational number (`ℚ`): rounding is not modelled,
  and a `float` literal stands for its value as a `float` (`2147483647.0f`
  is `2^31`).  Infinities and NaN appear only in `FloatVal`, with which the
  third loop of `updateMagnitudes` is modelled a second time
  (`updateMagnitudesF`): it agrees with the exact model wherever the divisor
  is not zero;
* a C array (`float *`) is a total map `Nat → ℚ` together with the number of
  cells the code touches; a `for` loop is `forUpTo`, which runs its body
  for `i = 0, 1, …, n - 1` in this order on an explicit state;
* a C `int` is an integer (`Int`, or `Nat` for a count); where a claim
  depends on it the machine arithmetic is explicit, with `% 2^w`: the
  24-bit sign extension, the `int` sums and products of the row colour
  (`wrapInt32`) and the stores into 8-bit colour channels;
* the globals of the smoother are the fields of `Globals`, all the globals
  of the file those of `Program`; what the functions of the host return
  during one frame are the fields of `Host`;
* what is written to the terminal is a list of `Out` items, one per call;
* `sqrtf` and the cosine of the Hamming window are external: they are the
  fields of `Extern`; what `fftwf_execute(plan)` computes is the argument
  `plan` of `calc_`.
-/

namespace Visuals

/-! ## Arrays and loops -/

/-- The assignment `a[i] = v`. -/
def store {α : Type} (a : Nat → α) (i : Nat) (v : α) : Nat → α :=
  fun k => if k = i then v else a k

/-- The loop `for (int i = 0; i < n; i++) s = body i s`. -/
def forUpTo {σ : Type} (body : Nat → σ → σ) : Nat → σ → σ
  | 0, s => s
  | n + 1, s => body n (forUpTo body n s)

/-- An array literal, zero beyond its end. -/
def ofList (l : List ℚ) : Nat → ℚ := fun i => l.getD i 0

/-! ## Globals -/

/-- `#define MAX_BUFFER_SIZE 4800`. -/
def MAX_BUFFER_SIZE : Nat := 4800

/-- `float alpha = 0.2f;` (never assigned afterwards). -/
def alpha : ℚ := 2 / 10

/-- `#define MOVING_AVERAGE_WINDOW_SIZE 2`. -/
def MOVING_AVERAGE_WINDOW_SIZE : Nat := 2

/-- The mutable globals that the smoother reads and writes: `lastMax` and
`lastMagnitudes[MAX_BUFFER_SIZE]`. -/
structure Globals where
  lastMax : ℚ
  lastMagnitudes : Nat → ℚ

/-- The initial values: `lastMax = -1.0f`, `lastMagnitudes = {0.0f}`. -/
def Globals.init : Globals :=
  { lastMax := -1, lastMagnitudes := fun _ => 0 }

/-! ## `updateMagnitudes` -/

/-- One turn of the inner loop (lines 59-71): the neighbours at distance `j`
of bar `i` are added to `(sum, count)` when they are inside `[0, width)`. -/
def windowStep (width : Nat) (magnitudes : Nat → ℚ) (i j : Nat) (acc : ℚ × Nat) : ℚ × Nat :=
  let acc1 : ℚ × Nat :=
    if (i : Int) - (j : Int) ≥ 0 then (acc.1 + magnitudes (i - j), acc.2 + 1) else acc
  if i + j < width then (acc1.1 + magnitudes (i + j), acc1.2 + 1) else acc1

/-- The body of the first loop (lines 55-74): `sum / count` for bar `i`,
with `j` running from `1` to `MOVING_AVERAGE_WINDOW_SIZE / 2`. -/
def movingAverage (width : Nat) (magnitudes : Nat → ℚ) (i : Nat) : ℚ :=
  let acc := forUpTo (fun k acc => windowStep width magnitudes i (k + 1) acc)
    (MOVING_AVERAGE_WINDOW_SIZE / 2) (magnitudes i, 1)
  acc.1 / (acc.2 : ℚ)

/-- Lines 50-81: the temporary array `smoothedMagnitudes` is filled from
`magnitudes`, then copied back over `magnitudes[0 .. width)`. The cells of
the temporary array are all written before they are read; they start at 0
here. -/
def smoothMagnitudes (width : Nat) (magnitudes : Nat → ℚ) : Nat → ℚ :=
  let smoothedMagnitudes : Nat → ℚ :=
    forUpTo (fun i sm => store sm i (movingAverage width magnitudes i)) width (fun _ => 0)
  forUpTo (fun i m => store m i (smoothedMagnitudes i)) width magnitudes

/-- `float exponent = 1.0;` : `pow(x, 1.0)` is `x ^ 1`. -/
def exponent : Nat := 1

/-- `float decreaseFactor = 0.8;`. -/
def decreaseFactor : ℚ := 8 / 10

/-- The body of the third loop (lines 88-105) on the pair
`(magnitudes, lastMagnitudes)`. -/
def decayStep (height : Int) (maxMagnitude : ℚ) (i : Nat)
    (s : (Nat → ℚ) × (Nat → ℚ)) : (Nat → ℚ) × (Nat → ℚ) :=
  let normalizedMagnitude : ℚ := s.1 i / maxMagnitude
  let normalizedMagnitude : ℚ := if normalizedMagnitude > 1 then 1 else normalizedMagnitude
  let scaledMagnitude : ℚ := normalizedMagnitude ^ exponent * (height : ℚ)
  let decayedMagnitude : ℚ := s.2 i * decreaseFactor
  let magnitudes : Nat → ℚ :=
    if scaledMagnitude < decayedMagnitude then store s.1 i decayedMagnitude
    else store s.1 i scaledMagnitude
  (magnitudes, store s.2 i (magnitudes i))

/-- `void updateMagnitudes(int height, int width, float maxMagnitude,
float *magnitudes)`: returns the array `magnitudes` and the globals after
the call. -/
def updateMagnitudes (g : Globals) (height : Int) (width : Nat) (maxMagnitude : ℚ)
    (magnitudes : Nat → ℚ) : (Nat → ℚ) × Globals :=
  let magnitudes := smoothMagnitudes width magnitudes
  let s := forUpTo (decayStep height maxMagnitude) width (magnitudes, g.lastMagnitudes)
  (s.1, { g with lastMagnitudes := s.2 })

/-! ## The third loop of `updateMagnitudes` with the special values of `float` -/

/-- A `float` with the special values of its arithmetic: a number (exact,
as everywhere here), an infinity, or NaN. -/
inductive FloatVal where
  | num (q : ℚ)
  | posInf
  | negInf
  | nan

/-- The quotient `a / d` of a `float` by a number.  A zero divisor is
`+0.0` (what `calcMaxMagnitude` returns from its initial `0.0f`): a
positive number over it is `+∞`, a negative one `-∞`, and `0 / 0` is
NaN. -/
def FloatVal.divBy (a : FloatVal) (d : ℚ) : FloatVal :=
  match a with
  | FloatVal.num q =>
    if d = 0 then
      (if q = 0 then FloatVal.nan else if 0 < q then FloatVal.posInf else FloatVal.negInf)
    else FloatVal.num (q / d)
  | FloatVal.posInf => if 0 ≤ d then FloatVal.posInf else FloatVal.negInf
  | FloatVal.negInf => if 0 ≤ d then FloatVal.negInf else FloatVal.posInf
  | FloatVal.nan => FloatVal.nan

/-- The test `a > c` against a number: false for NaN. -/
def FloatVal.gt (a : FloatVal) (c : ℚ) : Bool :=
  match a with
  | FloatVal.num q => decide (q > c)
  | FloatVal.posInf => true
  | FloatVal.negInf => false
  | FloatVal.nan => false

/-- `pow(a, exponent)` for the exponent `1.0` of the code: `pow(x, 1.0)`
is `x`, the special values included. -/
def FloatVal.pow (a : FloatVal) (n : Nat) : FloatVal :=
  match a with
  | FloatVal.num q => FloatVal.num (q ^ n)
  | FloatVal.posInf => FloatVal.posInf
  | FloatVal.negInf => FloatVal.negInf
  | FloatVal.nan => FloatVal.nan

/-- The product `a * c` of a `float` by a number: an infinity times `0` is
NaN. -/
def FloatVal.mulBy (a : FloatVal) (c : ℚ) : FloatVal :=
  match a with
  | FloatVal.num q => FloatVal.num (q * c)
  | FloatVal.posInf =>
    if 0 < c then FloatVal.posInf else if c < 0 then FloatVal.negInf else FloatVal.nan
  | FloatVal.negInf =>
    if 0 < c then FloatVal.negInf else if c < 0 then FloatVal.posInf else FloatVal.nan
  | FloatVal.nan => FloatVal.nan

/-- The test `a < b`: false when either side is NaN. -/
def FloatVal.lt (a b : FloatVal) : Bool :=
  match a, b with
  | FloatVal.nan, _ => false
  | _, FloatVal.nan => false
  | FloatVal.num x, FloatVal.num y => decide (x < y)
  | FloatVal.num _, FloatVal.posInf => true
  | FloatVal.num _, FloatVal.negInf => false
  | FloatVal.posInf, _ => false
  | FloatVal.negInf, FloatVal.negInf => false
  | FloatVal.negInf, _ => true

/-- Lines 88-104: the value that one turn of the third loop assigns to
`magnitudes[i]`, from `magnitudes[i]` and `lastMagnitudes[i]` as they are
before the turn. -/
def decayValueF (height : Int) (maxMagnitude : ℚ) (magnitude last : FloatVal) : FloatVal :=
  let normalizedMagnitude : FloatVal := magnitude.divBy maxMagnitude
  let normalizedMagnitude : FloatVal :=
    if normalizedMagnitude.gt 1 then FloatVal.num 1 else normalizedMagnitude
  let scaledMagnitude : FloatVal := (normalizedMagnitude.pow exponent).mulBy (height : ℚ)
  let decayedMagnitude : FloatVal := last.mulBy decreaseFactor
  if scaledMagnitude.lt decayedMagnitude then decayedMagnitude else scaledMagnitude

/-- The body of the third loop (lines 88-105) on the pair
`(magnitudes, lastMagnitudes)`, the cells being `float`s with their special
values. -/
def decayStepF (height : Int) (maxMagnitude : ℚ) (i : Nat)
    (s : (Nat → FloatVal) × (Nat → FloatVal)) : (Nat → FloatVal) × (Nat → FloatVal) :=
  let magnitudes : Nat → FloatVal :=
    store s.1 i (decayValueF height maxMagnitude (s.1 i) (s.2 i))
  (magnitudes, store s.2 i (magnitudes i))

/-- `updateMagnitudes` on a series of numbers, with the special values of
`float` arithmetic in the third loop: the arrays `magnitudes` and
`lastMagnitudes` after the call.  Where the divisor is not zero and the
previous values are numbers it computes what `updateMagnitudes` does
(`updateMagnitudesF_num`). -/
def updateMagnitudesF (lastMagnitudes : Nat → FloatVal) (height : Int) (width : Nat)
    (maxMagnitude : ℚ) (magnitudes : Nat → ℚ) : (Nat → FloatVal) × (Nat → FloatVal) :=
  let magnitudes := smoothMagnitudes width magnitudes
  forUpTo (decayStepF height maxMagnitude) width
    (fun i => FloatVal.num (magnitudes i), lastMagnitudes)

/-! ## `calcMaxMagnitude` -/

/-- Lines 111-118: the largest of `0` and `magnitudes[0 .. numBars)`. -/
def frameMax (numBars : Nat) (magnitudes : Nat → ℚ) : ℚ :=
  forUpTo (fun i maxMagnitude => if magnitudes i > maxMagnitude then magnitudes i else maxMagnitude)
    numBars 0

/-- `float calcMaxMagnitude(int numBars, float *magnitudes)`: the value
returned and the globals after the call. -/
def calcMaxMagnitude (g : Globals) (numBars : Nat) (magnitudes : Nat → ℚ) : ℚ × Globals :=
  let maxMagnitude := frameMax numBars magnitudes
  if g.lastMax < 0 then (maxMagnitude, g)
  else
    let g1 : Globals := { g with lastMax := (1 - alpha) * g.lastMax + alpha * maxMagnitude }
    (g1.lastMax, g1)

/-- The smoother's part of `calc` (lines 213-215): the maximum is taken
from the array as it is handed over, then `updateMagnitudes` runs with it. -/
def calcTail (g : Globals) (height : Int) (numBars : Nat) (magnitudes : Nat → ℚ) :
    (Nat → ℚ) × Globals :=
  let r := calcMaxMagnitude g numBars magnitudes
  updateMagnitudes r.2 height numBars r.1 magnitudes

/-! ## Sample normalisation (the `switch` of `calc`) -/

/-- The 32 bits of an `int` (two's complement). -/
def toBits32 (x : Int) : Nat := (x % 2 ^ 32).toNat

/-- The `int` that a pattern of 32 bits stands for. -/
def ofBits32 (n : Nat) : Int :=
  if n % 2 ^ 32 < 2 ^ 31 then ((n % 2 ^ 32 : Nat) : Int) else ((n % 2 ^ 32 : Nat) : Int) - 2 ^ 32

/-- Lines 168-172: `lower24Bits = sample & 0xFFFFFF`, then
`lower24Bits |= 0xFF000000` when `lower24Bits & 0x800000`. -/
def signExtend24 (sample : Int) : Int :=
  let lower24Bits : Nat := toBits32 sample &&& 0xFFFFFF
  let lower24Bits : Nat :=
    if lower24Bits &&& 0x800000 ≠ 0 then lower24Bits ||| 0xFF000000 else lower24Bits
  ofBits32 lower24Bits

/-- The `switch (bitDepth)` of lines 158-182 for one sample; `none` is the
`default:` branch, which returns from `calc`.  The divisors are the values
of the `float` literals: `127.0f`, `32768.0f` and `8388607.0f` are the
numbers written, and `2147483647.0f`, which no `float` holds, is `2^31`. -/
def normalizeSample (bitDepth : Int) (sample : Int) : Option ℚ :=
  if bitDepth = 8 then some (((sample : ℚ) - 128) / 127)
  else if bitDepth = 16 then some ((sample : ℚ) / 32768)
  else if bitDepth = 24 then some ((signExtend24 sample : ℚ) / 8388607)
  else if bitDepth = 32 then some ((sample : ℚ) / 2147483648)
  else none

/-! ## `calc` -/

/-- An `fftwf_complex` array: cell `i` is the pair `(a[i][0], a[i][1])`. -/
abbrev CBuf := Nat → ℚ × ℚ

/-- The numeric library functions that `calc` calls. -/
structure Extern where
  /-- `sqrtf`. -/
  sqrtf : ℚ → ℚ
  /-- The value of `cos(2 * M_PI * i / (j - 1))`, from `i` and `j`. -/
  hammingCos : Nat → Nat → ℚ

/-- The loop of lines 147-187, started at index `i` with `fuel` turns left:
`Except.error` is the `return` of the `default:` branch (with the input
buffer as it is then), `Except.ok` the buffer and `j` after the loop,
also when it is left by `break`. -/
def fillInput (audioBuffer : Nat → Int) (bitDepth bufferSize : Int) :
    Nat → Nat → CBuf × Nat → Except CBuf (CBuf × Nat)
  | 0, _, s => Except.ok s
  | fuel + 1, i, (fftInput, j) =>
    if (j : Int) ≥ bufferSize then Except.ok (fftInput, j)
    else
      match normalizeSample bitDepth (audioBuffer i) with
      | none => Except.error fftInput
      | some normalizedSample =>
        fillInput audioBuffer bitDepth bufferSize fuel (i + 1)
          (store fftInput j (normalizedSample, 0), j + 1)

/-- Lines 189-193: `for (int k = j; k < bufferSize; k++)` clears the rest
of the input buffer. -/
def padInput (bufferSize : Int) (j : Nat) (fftInput : CBuf) : CBuf :=
  forUpTo (fun k b => store b (j + k) (0, 0)) (bufferSize.toNat - j) fftInput

/-- Lines 196-200: the Hamming window on the `j` populated cells. -/
def applyWindow (E : Extern) (j : Nat) (fftInput : CBuf) : CBuf :=
  forUpTo (fun i b =>
    let window : ℚ := 54 / 100 - 46 / 100 * E.hammingCos i j
    store b i ((b i).1 * window, (b i).2)) j fftInput

/-- `void clearMagnitudes(int width, float *magnitudes)`. -/
def clearMagnitudes (width : Nat) (magnitudes : Nat → ℚ) : Nat → ℚ :=
  forUpTo (fun i m => store m i 0) width magnitudes

/-- A loop `for (i = start; i < bound && cond i; i++)`, with
`fuel = bound - start`. -/
def forWhile {σ : Type} (cond : Nat → Bool) (body : Nat → σ → σ) : Nat → Nat → σ → σ
  | 0, _, s => s
  | fuel + 1, i, s => if cond i then forWhile cond body fuel (i + 1) (body i s) else s

/-- Lines 204-211: the magnitudes are cleared, then
`for (int i = 0; i < numBars && i < j / 2; i++)` writes the modulus of
output bin `i`. -/
def extractMagnitudes (E : Extern) (numBars j : Nat) (fftOutput : CBuf)
    (magnitudes : Nat → ℚ) : Nat → ℚ :=
  let magnitudes := clearMagnitudes numBars magnitudes
  forWhile (fun i => decide (i < j / 2))
    (fun i m =>
      let magnitude : ℚ :=
        E.sqrtf ((fftOutput i).1 * (fftOutput i).1 + (fftOutput i).2 * (fftOutput i).2)
      store m i magnitude)
    numBars 0 magnitudes

/-- The memory that `calc` works on: the two transform buffers, the
caller's array `magnitudes` and the globals. -/
structure CalcState where
  fftInput : CBuf
  fftOutput : CBuf
  magnitudes : Nat → ℚ
  g : Globals

/-- `void calc(int height, int numBars, ma_int32 *audioBuffer, int bitDepth,
fftwf_complex *fftInput, fftwf_complex *fftOutput, float *magnitudes,
fftwf_plan plan)`. `bufferSize` is the value of `getBufferSize()`,
`audioBuffer = none` is the NULL pointer, and `plan` is what
`fftwf_execute(plan)` computes: the output buffer from the input buffer.
(`calc` is a keyword of Lean, hence the name `calc_`.) -/
def calc_ (E : Extern) (bufferSize : Int) (height : Int) (numBars : Nat)
    (audioBuffer : Option (Nat → Int)) (bitDepth : Int) (plan : CBuf → CBuf)
    (s : CalcState) : CalcState :=
  match audioBuffer with
  | none => s
  | some audioBuffer =>
    match fillInput audioBuffer bitDepth bufferSize bufferSize.toNat 0 (s.fftInput, 0) with
    | Except.error fftInput => { s with fftInput := fftInput }
    | Except.ok (fftInput, j) =>
      let fftInput := applyWindow E j (padInput bufferSize j fftInput)
      let fftOutput := plan fftInput
      let magnitudes := extractMagnitudes E numBars j fftOutput s.magnitudes
      let r := calcTail s.g height numBars magnitudes
      { fftInput := fftInput, fftOutput := fftOutput, magnitudes := r.1, g := r.2 }

/-! ## Glyphs -/

/-- `wchar_t* upwardMotionChars[]`. -/
def upwardMotionChars : List String :=
  [" ", "▁", "▂", "▃", "▄", "▅", "▆", "▇", "█"]

/-- `wchar_t* getUpwardMotionChar(int level)`. -/
def getUpwardMotionChar (level : Int) : String :=
  let level : Int := if level < 0 ∨ level > 8 then 8 else level
  upwardMotionChars.getD level.toNat ""

/-- The conversion `(int) x`: rounding toward zero. -/
def truncToInt (x : ℚ) : Int := if 0 ≤ x then ⌊x⌋ else ⌈x⌉

/-- `fmod(x, y)`: `x - n * y` with `n` the quotient `x / y` rounded toward
zero. -/
def fmod (x y : ℚ) : ℚ := x - (truncToInt (x / y) : ℚ) * y

/-- What `printSpectrum` prints for one bar in row `j` when playback is
neither paused nor stopped (lines 312-334), `m` being `magnitudes[i]`. -/
def printCell (unicodeSupport : Bool) (j : Int) (m : ℚ) : String :=
  if j ≥ 0 then
    if m ≥ (j : ℚ) then
      if unicodeSupport then " " ++ getUpwardMotionChar 10 else " █"
    else if m + 1 ≥ (j : ℚ) ∧ unicodeSupport = true then
      let firstDecimalDigit : Int := truncToInt (fmod (m * 10) 10)
      " " ++ getUpwardMotionChar firstDecimalDigit
    else "  "
  else ""

/-! ## Frame sequences -/

/-- One call of `updateMagnitudes`: its four arguments. -/
structure Frame where
  height : Int
  numBars : Nat
  maxMagnitude : ℚ
  magnitudes : Nat → ℚ

/-- The globals after `updateMagnitudes` has run on each frame of a
sequence in turn. -/
def runFrames (g : Globals) : List Frame → Globals
  | [] => g
  | f :: fs =>
    runFrames (updateMagnitudes g f.height f.numBars f.maxMagnitude f.magnitudes).2 fs

/-- The input conditions of the range invariant: the row count is not
negative, the divisor is positive, no input magnitude is negative. -/
def Frame.valid (f : Frame) : Prop :=
  0 ≤ f.height ∧ 0 < f.maxMagnitude ∧ ∀ i, i < f.numBars → 0 ≤ f.magnitudes i

/-! ## `printSpectrum` -/

/-- Modelled from the spec: the declaration of `PixelData` is in
`visuals.h`, which is not among the sources.  A colour is an `(r, g, b)`
triple; each channel is an 8-bit value, `0..255`. -/
structure PixelData where
  r : Nat
  g : Nat
  b : Nat

/-- The conversion of an `int` to an 8-bit channel: its value modulo
`2^8`. -/
def toChannel (v : Int) : Nat := (v % 256).toNat

/-- The result of an `int` operation whose exact value is `x`: the `int`
with the same low 32 bits (the arithmetic of the compiled code wraps
modulo `2^32`). -/
def wrapInt32 (x : Int) : Int := ofBits32 (toBits32 x)

/-- `PixelData increaseLuminosity(PixelData pixel, int amount)`; the sums
are `int` sums, which wrap, the results are stored in 8-bit channels. -/
def increaseLuminosity (pixel : PixelData) (amount : Int) : PixelData :=
  { r := toChannel (if wrapInt32 ((pixel.r : Int) + amount) ≤ 255
                    then wrapInt32 ((pixel.r : Int) + amount) else 255)
    g := toChannel (if wrapInt32 ((pixel.g : Int) + amount) ≤ 255
                    then wrapInt32 ((pixel.g : Int) + amount) else 255)
    b := toChannel (if wrapInt32 ((pixel.b : Int) + amount) ≤ 255
                    then wrapInt32 ((pixel.b : Int) + amount) else 255) }

/-- The argument `round(j * height * 4)` of line 293: the `int` product
`(j * height) * 4`, which wraps, converted to `double`, rounded (it is an
integer already) and converted back to `int`. -/
def rowBoost (height j : Int) : Int := wrapInt32 (wrapInt32 (j * height) * 4)

/-- What the visualizer sends to the terminal, one item per call: the text
of a `printf` (`text`), the colour escape `printf("\033[38;2;%d;%d;%dm",
r, g, b)` (`rgb`), and the calls of the terminal primitives
`clearRestOfScreen()`, `printBlankSpaces(n)`, `setDefaultTextColor()` and
`fflush(stdout)`. -/
inductive Out where
  | text (s : String)
  | rgb (r g b : Nat)
  | clearRestOfScreen
  | printBlankSpaces (n : Int)
  | setDefaultTextColor
  | fflush
  deriving DecidableEq

/-- The loop `for (int j = n; j > 0; j--) s = body j s`. -/
def forDownFrom {σ : Type} (body : Nat → σ → σ) : Nat → σ → σ
  | 0, s => s
  | n + 1, s => forDownFrom body n (body (n + 1) s)

/-- Lines 301-336: the bar cells of row `j`, appended to the output. -/
def printCells (unicodeSupport isPaused isStopped : Bool) (width : Nat)
    (magnitudes : Nat → ℚ) (j : Int) (out : List Out) : List Out :=
  if isPaused || isStopped then
    forUpTo (fun _ o => o ++ [Out.text "  "]) width out
  else
    forUpTo (fun i o =>
      if j ≥ 0 then o ++ [Out.text (printCell unicodeSupport j (magnitudes i))] else o) width out

/-- Lines 289-300: the colour of row `j`. -/
def printColor (height : Int) (color : PixelData) (useProfileColors : Bool) (j : Int)
    (out : List Out) : List Out :=
  if color.r ≠ 0 ∨ color.g ≠ 0 ∨ color.b ≠ 0 then
    if !useProfileColors then
      let tmp := increaseLuminosity color (rowBoost height j)
      out ++ [Out.rgb tmp.r tmp.g tmp.b]
    else out
  else out ++ [Out.setDefaultTextColor]

/-- Lines 287-337: one turn of the row loop of `printSpectrum`. -/
def printRow (unicodeSupport isPaused isStopped : Bool) (height : Int) (width : Nat)
    (magnitudes : Nat → ℚ) (color : PixelData) (indentation : Int) (useProfileColors : Bool)
    (j : Int) (out : List Out) : List Out :=
  let out := out ++ [Out.text "\r"]
  let out := out ++ [Out.printBlankSpaces indentation]
  let out := printColor height color useProfileColors j out
  let out := printCells unicodeSupport isPaused isStopped width magnitudes j out
  out ++ [Out.text "\n "]

/-- `void printSpectrum(int height, int width, float *magnitudes,
PixelData color, int indentation, bool useProfileColors)`: what it sends
to the terminal.  `unicodeSupport` is the global, `isPaused` and
`isStopped` are what `isPaused()` and `isStopped()` return. -/
def printSpectrum (unicodeSupport isPaused isStopped : Bool) (height : Int) (width : Nat)
    (magnitudes : Nat → ℚ) (color : PixelData) (indentation : Int) (useProfileColors : Bool) :
    List Out :=
  let out : List Out := [Out.text "\n", Out.clearRestOfScreen]
  let out := forDownFrom (fun j o =>
    printRow unicodeSupport isPaused isStopped height width magnitudes color indentation
      useProfileColors (j : Int) o) height.toNat out
  out ++ [Out.text "\r", Out.fflush]

/-! ## `calcSpectrum`, `freeVisuals`, `drawSpectrumVisualizer` -/

/-- What the sample loop of `calc` (lines 147-187) prints, started at index
`i` with `fuel` turns left. -/
def fillInputPrinted (audioBuffer : Nat → Int) (bitDepth bufferSize : Int) :
    Nat → Nat → Nat → List Out
  | 0, _, _ => []
  | fuel + 1, i, j =>
    if (j : Int) ≥ bufferSize then [Out.text "Exceeded FFT input buffer size.\n"]
    else
      match normalizeSample bitDepth (audioBuffer i) with
      | none => [Out.text ("Unsupported bit depth: " ++ toString bitDepth ++ "\n")]
      | some _ => fillInputPrinted audioBuffer bitDepth bufferSize fuel (i + 1) (j + 1)

/-- What `calc` prints (the `printf` calls of lines 141, 151 and 180), for
the arguments of `calc_`. -/
def calcPrinted (bufferSize : Int) (audioBuffer : Option (Nat → Int)) (bitDepth : Int) :
    List Out :=
  match audioBuffer with
  | none => [Out.text "Audio buffer is NULL.\n"]
  | some audioBuffer => fillInputPrinted audioBuffer bitDepth bufferSize bufferSize.toNat 0 0

/-- The sample formats of the audio library that `calcSpectrum` tells
apart (`ma_format`, declared in miniaudio). -/
inductive ma_format where
  | ma_format_unknown
  | ma_format_u8
  | ma_format_s16
  | ma_format_s24
  | ma_format_s32
  | ma_format_f32
  deriving DecidableEq

/-- What the functions of the host return during one frame:
`getBufferSize()`, `getAudioBuffer()` (`none` is NULL), `getCurrentFormat()`,
`isPaused()`, `isStopped()`, whether the first and the second
`fftwf_malloc` of the frame succeed should they be called, and what
`fftwf_execute` computes for the plan of the frame. -/
structure Host where
  getBufferSize : Int
  getAudioBuffer : Option (Nat → Int)
  getCurrentFormat : ma_format
  isPaused : Bool
  isStopped : Bool
  mallocInputOk : Bool
  mallocOutputOk : Bool
  plan : CBuf → CBuf

/-- The `switch (format)` of `calcSpectrum` (lines 239-261). -/
def bitDepthOf (format : ma_format) : Int :=
  match format with
  | ma_format.ma_format_u8 => 8
  | ma_format.ma_format_s16 => 16
  | ma_format.ma_format_s24 => 24
  | ma_format.ma_format_f32 => 32
  | ma_format.ma_format_s32 => 32
  | _ => 32

/-- `int calcSpectrum(int height, int numBars, fftwf_complex *fftInput,
fftwf_complex *fftOutput, float *magnitudes, fftwf_plan plan)`: the value
returned and the memory after the call. -/
def calcSpectrum (E : Extern) (H : Host) (height : Int) (numBars : Nat) (plan : CBuf → CBuf)
    (s : CalcState) : Int × CalcState :=
  if H.getCurrentFormat = ma_format.ma_format_unknown then (-1, s)
  else
    (0, calc_ E H.getBufferSize height numBars H.getAudioBuffer
      (bitDepthOf H.getCurrentFormat) plan s)

/-- What `calcSpectrum` prints: nothing for an unknown format, what `calc`
prints otherwise. -/
def calcSpectrumPrinted (H : Host) : List Out :=
  if H.getCurrentFormat = ma_format.ma_format_unknown then []
  else calcPrinted H.getBufferSize H.getAudioBuffer (bitDepthOf H.getCurrentFormat)

/-- A block obtained from `fftwf_malloc`: its length in cells and its
contents. -/
structure Buffer where
  len : Int
  data : CBuf

/-- All the globals of `visuals.c`: those of the smoother (`g`),
`bufferSize`, `prevBufferSize`, `unicodeSupport` and the two transform
buffers (`none` is NULL). -/
structure Program where
  g : Globals
  bufferSize : Int
  prevBufferSize : Int
  unicodeSupport : Bool
  fftInput : Option Buffer
  fftOutput : Option Buffer

/-- The initial values of the globals (lines 15-26). -/
def Program.init : Program :=
  { g := Globals.init, bufferSize := 4800, prevBufferSize := 0, unicodeSupport := false,
    fftInput := none, fftOutput := none }

/-- `void initVisuals()`; `locale` tells whether `setlocale(LC_ALL, "")`
returns a locale. -/
def initVisuals (locale : Bool) (st : Program) : Program :=
  let st : Program := { st with unicodeSupport := false }
  if (if locale then (1 : Int) else 0) > 0 then { st with unicodeSupport := true } else st

/-- `void freeVisuals()`. -/
def freeVisuals (st : Program) : Program :=
  let st : Program := if st.fftInput.isSome then { st with fftInput := none } else st
  if st.fftOutput.isSome then { st with fftOutput := none } else st

/-- Lines 376-396 of `drawSpectrumVisualizer`: the block run when the
buffer size has changed.  The flag tells whether the frame goes on
(`false`: one of the `return`s was taken).  A new block holds zeros here. -/
def reallocate (H : Host) (st : Program) : Program × Bool :=
  if st.bufferSize ≠ st.prevBufferSize then
    let st : Program := { st with g := { st.g with lastMax := -1 } }
    let st : Program := freeVisuals st
    if !H.mallocInputOk then ({ st with fftInput := none }, false)
    else
      let st : Program := { st with fftInput := some ⟨st.bufferSize, fun _ => (0, 0)⟩ }
      if !H.mallocOutputOk then ({ st with fftOutput := none, fftInput := none }, false)
      else
        ({ st with fftOutput := some ⟨st.bufferSize, fun _ => (0, 0)⟩,
                   prevBufferSize := st.bufferSize }, true)
  else (st, true)

/-- How a call of `drawSpectrumVisualizer` ends: by one of its early
`return`s, nothing being written (`returned`); after `printSpectrum`, with
all that was written (`rendered`); or at line 398 with a NULL transform
buffer (`nullBuffer`), the calls on a NULL buffer not being modelled. -/
inductive FrameEnd where
  | returned
  | rendered (out : List Out)
  | nullBuffer

/-- `void drawSpectrumVisualizer(int height, int width, PixelData c,
int indentation, bool useProfileColors)`: the globals after the call and
how it ended. -/
def drawSpectrumVisualizer (E : Extern) (H : Host) (st : Program) (height width : Int)
    (c : PixelData) (indentation : Int) (useProfileColors : Bool) : Program × FrameEnd :=
  let st : Program := { st with bufferSize := H.getBufferSize }
  let color : PixelData := { r := c.r, g := c.g, b := c.b }
  let numBars : Nat := (Int.tdiv width 2).toNat
  let height : Int := height - 1
  if height ≤ 0 ∨ width ≤ 0 then (st, FrameEnd.returned)
  else if st.bufferSize ≤ 0 then (st, FrameEnd.returned)
  else
    match reallocate H st with
    | (st, false) => (st, FrameEnd.returned)
    | (st, true) =>
      match st.fftInput, st.fftOutput with
      | some fftInput, some fftOutput =>
        let magnitudes : Nat → ℚ := forUpTo (fun i m => store m i 0) numBars (fun _ => 0)
        let r := calcSpectrum E H height numBars H.plan
          { fftInput := fftInput.data, fftOutput := fftOutput.data, magnitudes := magnitudes,
            g := st.g }
        let out := calcSpectrumPrinted H
          ++ printSpectrum st.unicodeSupport H.isPaused H.isStopped height numBars
              r.2.magnitudes color indentation useProfileColors
        ({ st with g := r.2.g,
                   fftInput := some { fftInput with data := r.2.fftInput },
                   fftOutput := some { fftOutput with data := r.2.fftOutput } },
          FrameEnd.rendered out)
      | _, _ => (st, FrameEnd.nullBuffer)

/-- A call of one of the functions of the file that can write `lastMax`,
with its arguments. -/
inductive Op where
  | initVisuals (locale : Bool)
  | drawSpectrumVisualizer (H : Host) (height width : Int) (c : PixelData)
      (indentation : Int) (useProfileColors : Bool)
  | calcSpectrum (H : Host) (height : Int) (numBars : Nat) (fftInput fftOutput : CBuf)
      (magnitudes : Nat → ℚ) (plan : CBuf → CBuf)
  | calc_ (bufferSize height : Int) (numBars : Nat) (audioBuffer : Option (Nat → Int))
      (bitDepth : Int) (fftInput fftOutput : CBuf) (magnitudes : Nat → ℚ) (plan : CBuf → CBuf)
  | calcMaxMagnitude (numBars : Nat) (magnitudes : Nat → ℚ)

/-- The globals after one call. -/
def runOp (E : Extern) (st : Program) : Op → Program
  | Op.initVisuals locale => initVisuals locale st
  | Op.drawSpectrumVisualizer H height width c indentation useProfileColors =>
    (drawSpectrumVisualizer E H st height width c indentation useProfileColors).1
  | Op.calcSpectrum H height numBars fftInput fftOutput magnitudes plan =>
    { st with g := (calcSpectrum E H height numBars plan
        { fftInput := fftInput, fftOutput := fftOutput, magnitudes := magnitudes, g := st.g }).2.g }
  | Op.calc_ bufferSize height numBars audioBuffer bitDepth fftInput fftOutput magnitudes plan =>
    { st with g := (calc_ E bufferSize height numBars audioBuffer bitDepth plan
        { fftInput := fftInput, fftOutput := fftOutput, magnitudes := magnitudes, g := st.g }).g }
  | Op.calcMaxMagnitude numBars magnitudes =>
    { st with g := (calcMaxMagnitude st.g numBars magnitudes).2 }

/-- The globals after a sequence of calls, the first one first. -/
def runOps (E : Extern) (st : Program) : List Op → Program
  | [] => st
  | op :: ops => runOps E (runOp E st op) ops

/-- The globals after a sequence of calls of `drawSpectrumVisualizer`, one
per item: what the host returns during the call, and the arguments
`height` and `width` (the colour is black, the indentation 0). -/
def runDraws (E : Extern) (st : Program) : List (Host × Int × Int) → Program
  | [] => st
  | (H, height, width) :: fs =>
    runDraws E (drawSpectrumVisualizer E H st height width ⟨0, 0, 0⟩ 0 false).1 fs

/-! ## The shape of a block of rows -/

/-- The row indices of a block of `n` rows, top row first:
`n, n - 1, …, 1`. -/
def rowsDownFrom : Nat → List Nat
  | 0 => []
  | n + 1 => (n + 1) :: rowsDownFrom n

/-- The bar cells of row `j` as the specification describes them: `width`
blank cells when playback is paused or stopped, and the glyph of each bar
otherwise. -/
def rowCells (unicodeSupport isPaused isStopped : Bool) (width : Nat) (magnitudes : Nat → ℚ)
    (j : Int) : List Out :=
  if isPaused || isStopped then List.replicate width (Out.text "  ")
  else (List.range width).map (fun i => Out.text (printCell unicodeSupport j (magnitudes i)))

/-- A block as the specification describes it: a line break and the
clearing of the screen, then the rows `height, …, 1`, each made of a
carriage return, the indentation, the items `colour j` that select the
colour, the cells `cells j` and a line break, then a carriage return and
the flush. -/
def blockOf (height : Nat) (indentation : Int) (colour cells : Nat → List Out) : List Out :=
  [Out.text "\n", Out.clearRestOfScreen]
    ++ (rowsDownFrom height).flatMap (fun j =>
        [Out.text "\r", Out.printBlankSpaces indentation] ++ colour j ++ cells j
          ++ [Out.text "\n "])
    ++ [Out.text "\r", Out.fflush]

/-- The transform buffers are there for the frame: the buffer size differs
from the one of the previous allocation and both `fftwf_malloc` calls
succeed, or it is the same and the two buffers are not NULL. -/
def buffersReady (H : Host) (st : Program) : Prop :=
  (H.getBufferSize ≠ st.prevBufferSize ∧ H.mallocInputOk = true ∧ H.mallocOutputOk = true)
  ∨ (H.getBufferSize = st.prevBufferSize ∧ st.fftInput.isSome = true
      ∧ st.fftOutput.isSome = true)

/-! ## Loop lemmas -/

theorem store_self {α : Type} (a : Nat → α) (i : Nat) (v : α) : store a i v i = v := by
  simp [store]

theorem store_other {α : Type} (a : Nat → α) (i k : Nat) (v : α) (h : k ≠ i) :
    store a i v k = a k := by
  simp [store, h]

/-- A loop that writes `f i` to cell `i` leaves `f k` in every cell below
the bound and does not touch the others. -/
theorem forUpTo_store (f : Nat → ℚ) (n : Nat) (a : Nat → ℚ) (k : Nat) :
    forUpTo (fun i m => store m i (f i)) n a k = if k < n then f k else a k := by
  induction n with
  | zero => simp [forUpTo]
  | succ n ih =>
    simp only [forUpTo]
    by_cases hk : k = n
    · subst hk
      simp [store]
    · rw [store_other _ _ _ _ hk, ih]
      by_cases hlt : k < n
      · simp [hlt, Nat.lt_succ_of_lt hlt]
      · have : ¬ k < n + 1 := by omega
        simp [hlt, this]

/-- The value that one turn of the third loop leaves in bar `i`. -/
theorem decayStep_value (height : Int) (maxMagnitude : ℚ) (i : Nat)
    (s : (Nat → ℚ) × (Nat → ℚ)) :
    (decayStep height maxMagnitude i s).1 i
      = max (min (s.1 i / maxMagnitude) 1 * (height : ℚ)) (s.2 i * (8 / 10)) := by
  simp only [decayStep, exponent, decreaseFactor, pow_one]
  have hmin : (if s.1 i / maxMagnitude > 1 then (1 : ℚ) else s.1 i / maxMagnitude)
      = min (s.1 i / maxMagnitude) 1 := by
    rcases le_or_lt (s.1 i / maxMagnitude) 1 with h | h
    · rw [min_eq_left h, if_neg (not_lt.mpr h)]
    · rw [min_eq_right h.le, if_pos h]
  rw [hmin]
  split_ifs with h
  · rw [store_self, max_eq_right h.le]
  · rw [store_self, max_eq_left (not_lt.mp h)]

theorem decayStep_snd_self (height : Int) (maxMagnitude : ℚ) (i : Nat)
    (s : (Nat → ℚ) × (Nat → ℚ)) :
    (decayStep height maxMagnitude i s).2 i = (decayStep height maxMagnitude i s).1 i := by
  simp only [decayStep, store_self]

theorem decayStep_fst_other (height : Int) (maxMagnitude : ℚ) (i k : Nat)
    (s : (Nat → ℚ) × (Nat → ℚ)) (h : k ≠ i) :
    (decayStep height maxMagnitude i s).1 k = s.1 k := by
  simp only [decayStep]
  split_ifs <;> exact store_other _ _ _ _ h

theorem decayStep_snd_other (height : Int) (maxMagnitude : ℚ) (i k : Nat)
    (s : (Nat → ℚ) × (Nat → ℚ)) (h : k ≠ i) :
    (decayStep height maxMagnitude i s).2 k = s.2 k := by
  simp only [decayStep]
  exact store_other _ _ _ _ h

/-- The third loop, cell by cell: below the bound both arrays hold the
larger of the scaled and the decayed value, computed from the cells as they
were before the loop; the other cells are untouched. -/
theorem forUpTo_decayStep (height : Int) (maxMagnitude : ℚ) (n : Nat)
    (m l : Nat → ℚ) (k : Nat) :
    ((forUpTo (decayStep height maxMagnitude) n (m, l)).1 k
        = if k < n then max (min (m k / maxMagnitude) 1 * (height : ℚ)) (l k * (8 / 10))
          else m k)
    ∧ ((forUpTo (decayStep height maxMagnitude) n (m, l)).2 k
        = if k < n then max (min (m k / maxMagnitude) 1 * (height : ℚ)) (l k * (8 / 10))
          else l k) := by
  induction n generalizing k with
  | zero => simp [forUpTo]
  | succ n ih =>
    simp only [forUpTo]
    by_cases hk : k = n
    · subst hk
      rw [decayStep_snd_self, decayStep_value, (ih k).1, (ih k).2]
      simp
    · rw [decayStep_fst_other _ _ _ _ _ hk, decayStep_snd_other _ _ _ _ _ hk, (ih k).1, (ih k).2]
      by_cases hlt : k < n
      · simp [hlt, Nat.lt_succ_of_lt hlt]
      · have : ¬ k < n + 1 := by omega
        simp [hlt, this]

/-- The moving average of bar `i`, with the inner loop unrolled. -/
theorem movingAverage_eq (width : Nat) (magnitudes : Nat → ℚ) (i : Nat) :
    movingAverage width magnitudes i
      = if 1 ≤ i then
          (if i + 1 < width then (magnitudes i + magnitudes (i - 1) + magnitudes (i + 1)) / 3
           else (magnitudes i + magnitudes (i - 1)) / 2)
        else
          (if i + 1 < width then (magnitudes i + magnitudes (i + 1)) / 2
           else magnitudes i) := by
  have h1 : MOVING_AVERAGE_WINDOW_SIZE / 2 = 1 := by decide
  simp only [movingAverage, h1, forUpTo, windowStep]
  by_cases hi : 1 ≤ i
  · have hi2 : ((i : Int) - ((0 + 1 : Nat) : Int) ≥ 0) := by push_cast; omega
    by_cases hw : i + 1 < width
    · simp only [if_pos hi, if_pos hw, if_pos hi2, Nat.zero_add]
      norm_num
    · simp only [if_pos hi, if_neg hw, if_pos hi2, Nat.zero_add]
      norm_num
  · have hi2 : ¬ ((i : Int) - ((0 + 1 : Nat) : Int) ≥ 0) := by push_cast; omega
    by_cases hw : i + 1 < width
    · simp only [if_neg hi, if_pos hw, if_neg hi2, Nat.zero_add]
      norm_num
    · simp only [if_neg hi, if_neg hw, if_neg hi2, Nat.zero_add]
      norm_num

/-- Stage 1, cell by cell: every bar below `width` holds the moving average
of the series as it was before the call. -/
theorem smoothMagnitudes_apply (width : Nat) (magnitudes : Nat → ℚ) (k : Nat) :
    smoothMagnitudes width magnitudes k
      = if k < width then movingAverage width magnitudes k else magnitudes k := by
  simp only [smoothMagnitudes]
  rw [forUpTo_store, forUpTo_store]
  by_cases h : k < width <;> simp [h]

/-- The result of `updateMagnitudes`, cell by cell: bar `k < width` ends as
the larger of `min(avg / maxMagnitude, 1) * height` and `0.8` times its
previous value, in `magnitudes` and in `lastMagnitudes` alike; cells from
`width` on are untouched. -/
theorem updateMagnitudes_apply (g : Globals) (height : Int) (width : Nat) (maxMagnitude : ℚ)
    (magnitudes : Nat → ℚ) (k : Nat) :
    ((updateMagnitudes g height width maxMagnitude magnitudes).1 k
        = if k < width then
            max (min (movingAverage width magnitudes k / maxMagnitude) 1 * (height : ℚ))
              (g.lastMagnitudes k * (8 / 10))
          else magnitudes k)
    ∧ ((updateMagnitudes g height width maxMagnitude magnitudes).2.lastMagnitudes k
        = if k < width then
            max (min (movingAverage width magnitudes k / maxMagnitude) 1 * (height : ℚ))
              (g.lastMagnitudes k * (8 / 10))
          else g.lastMagnitudes k) := by
  simp only [updateMagnitudes]
  have h := forUpTo_decayStep height maxMagnitude width (smoothMagnitudes width magnitudes)
    g.lastMagnitudes k
  rw [h.1, h.2, smoothMagnitudes_apply]
  by_cases hk : k < width <;> simp [hk]

theorem updateMagnitudes_lastMax (g : Globals) (height : Int) (width : Nat) (maxMagnitude : ℚ)
    (magnitudes : Nat → ℚ) :
    (updateMagnitudes g height width maxMagnitude magnitudes).2.lastMax = g.lastMax := rfl

/-- An array literal of non-negative numbers has no negative cell. -/
theorem ofList_nonneg (l : List ℚ) (hl : ∀ x, x ∈ l → 0 ≤ x) (i : Nat) : 0 ≤ ofList l i := by
  induction l generalizing i with
  | nil => simp [ofList]
  | cons a l ih =>
    cases i with
    | zero => simpa [ofList] using hl a (List.mem_cons_self _ _)
    | succ i =>
      have := ih (fun x hx => hl x (List.mem_cons_of_mem _ hx)) i
      simpa [ofList] using this

/-! ## Lemmas on `frameMax` and `calcMaxMagnitude` -/

theorem frameMax_succ (n : Nat) (m : Nat → ℚ) :
    frameMax (n + 1) m = max (m n) (frameMax n m) := by
  simp only [frameMax, forUpTo]
  split_ifs with h
  · exact (max_eq_left h.le).symm
  · exact (max_eq_right (not_lt.mp h)).symm

theorem frameMax_nonneg (n : Nat) (m : Nat → ℚ) : 0 ≤ frameMax n m := by
  induction n with
  | zero => simp [frameMax, forUpTo]
  | succ n ih => rw [frameMax_succ]; exact le_max_of_le_right ih

theorem le_frameMax (n : Nat) (m : Nat → ℚ) (i : Nat) (hi : i < n) : m i ≤ frameMax n m := by
  induction n with
  | zero => omega
  | succ n ih =>
    rw [frameMax_succ]
    by_cases h : i = n
    · subst h; exact le_max_left _ _
    · exact le_max_of_le_right (ih (by omega))

theorem frameMax_attained (n : Nat) (m : Nat → ℚ) :
    frameMax n m = 0 ∨ ∃ i, i < n ∧ m i = frameMax n m := by
  induction n with
  | zero => left; simp [frameMax, forUpTo]
  | succ n ih =>
    rw [frameMax_succ]
    rcases le_total (m n) (frameMax n m) with h | h
    · rw [max_eq_right h]
      rcases ih with h0 | ⟨i, hi, hv⟩
      · exact Or.inl h0
      · exact Or.inr ⟨i, by omega, hv⟩
    · rw [max_eq_left h]
      exact Or.inr ⟨n, by omega, rfl⟩

/-- On a non-negative series with at least one bar, `frameMax` is the
maximum of the series. -/
theorem frameMax_eq_of_isMax (n : Nat) (m : Nat → ℚ) (M : ℚ)
    (hle : ∀ i, i < n → m i ≤ M) (hex : ∃ i, i < n ∧ m i = M)
    (hpos : ∀ i, i < n → 0 ≤ m i) : frameMax n m = M := by
  obtain ⟨i, hi, hv⟩ := hex
  apply le_antisymm
  · rcases frameMax_attained n m with h0 | ⟨k, hk, hkv⟩
    · rw [h0, ← hv]; exact hpos i hi
    · rw [← hkv]; exact hle k hk
  · rw [← hv]; exact le_frameMax n m i hi

/-- With the sentinel in `lastMax`, `calcMaxMagnitude` returns the frame's
maximum and writes no global. -/
theorem calcMaxMagnitude_sentinel (g : Globals) (n : Nat) (m : Nat → ℚ) (h : g.lastMax < 0) :
    calcMaxMagnitude g n m = (frameMax n m, g) := by
  simp [calcMaxMagnitude, h]

/-- With a running max in `lastMax`, `calcMaxMagnitude` stores and returns
`(1 - alpha) * lastMax + alpha * frameMax`. -/
theorem calcMaxMagnitude_running (g : Globals) (n : Nat) (m : Nat → ℚ) (h : 0 ≤ g.lastMax) :
    (calcMaxMagnitude g n m).1 = 8 / 10 * g.lastMax + 2 / 10 * frameMax n m
    ∧ (calcMaxMagnitude g n m).2.lastMax = 8 / 10 * g.lastMax + 2 / 10 * frameMax n m
    ∧ (calcMaxMagnitude g n m).2.lastMagnitudes = g.lastMagnitudes := by
  have h1 : ¬ g.lastMax < 0 := not_lt.mpr h
  refine ⟨?_, ?_, ?_⟩
  · simp only [calcMaxMagnitude, if_neg h1, alpha]; ring
  · simp only [calcMaxMagnitude, if_neg h1, alpha]; ring
  · simp only [calcMaxMagnitude, if_neg h1]

/-! ## C1: the range of the magnitudes -/

/-- One frame keeps every cell of `lastMagnitudes` in `[0, H]` when `H` is
at least the frame's row count, and leaves its bars in `[0, H]`. -/
theorem updateMagnitudes_range (g : Globals) (f : Frame) (H : ℚ) (hf : f.valid)
    (hH : (f.height : ℚ) ≤ H) (hg : ∀ k, 0 ≤ g.lastMagnitudes k ∧ g.lastMagnitudes k ≤ H) :
    (∀ k, 0 ≤ (updateMagnitudes g f.height f.numBars f.maxMagnitude f.magnitudes).2.lastMagnitudes k
        ∧ (updateMagnitudes g f.height f.numBars f.maxMagnitude f.magnitudes).2.lastMagnitudes k ≤ H)
    ∧ (∀ i, i < f.numBars →
        0 ≤ (updateMagnitudes g f.height f.numBars f.maxMagnitude f.magnitudes).1 i
        ∧ (updateMagnitudes g f.height f.numBars f.maxMagnitude f.magnitudes).1 i ≤ H) := by
  have hh : (0 : ℚ) ≤ (f.height : ℚ) := by exact_mod_cast hf.1
  have hH0 : (0 : ℚ) ≤ H := le_trans hh hH
  have key : ∀ k, 0 ≤ max (min (movingAverage f.numBars f.magnitudes k / f.maxMagnitude) 1
        * (f.height : ℚ)) (g.lastMagnitudes k * (8 / 10))
      ∧ max (min (movingAverage f.numBars f.magnitudes k / f.maxMagnitude) 1
        * (f.height : ℚ)) (g.lastMagnitudes k * (8 / 10)) ≤ H := by
    intro k
    have h0 := (hg k).1
    have h1 := (hg k).2
    constructor
    · exact le_max_of_le_right (by positivity)
    · apply max_le
      · calc min (movingAverage f.numBars f.magnitudes k / f.maxMagnitude) 1 * (f.height : ℚ)
            ≤ 1 * (f.height : ℚ) := mul_le_mul_of_nonneg_right (min_le_right _ _) hh
          _ ≤ H := by rw [one_mul]; exact hH
      · linarith
  constructor
  · intro k
    rw [(updateMagnitudes_apply g f.height f.numBars f.maxMagnitude f.magnitudes k).2]
    by_cases hk : k < f.numBars
    · rw [if_pos hk]; exact key k
    · rw [if_neg hk]; exact hg k
  · intro i hi
    rw [(updateMagnitudes_apply g f.height f.numBars f.maxMagnitude f.magnitudes i).1, if_pos hi]
    exact key i

/-- A sequence of frames whose row counts are at most `H` keeps every cell
of `lastMagnitudes` in `[0, H]`. -/
theorem runFrames_range (fs : List Frame) (g : Globals) (H : ℚ)
    (hfs : ∀ f, f ∈ fs → f.valid ∧ (f.height : ℚ) ≤ H)
    (hg : ∀ k, 0 ≤ g.lastMagnitudes k ∧ g.lastMagnitudes k ≤ H) :
    ∀ k, 0 ≤ (runFrames g fs).lastMagnitudes k ∧ (runFrames g fs).lastMagnitudes k ≤ H := by
  induction fs generalizing g with
  | nil => exact hg
  | cons f fs ih =>
    simp only [runFrames]
    apply ih
    · intro f1 hf1
      exact hfs f1 (List.mem_cons_of_mem _ hf1)
    · have hf := hfs f (List.mem_cons_self _ _)
      exact (updateMagnitudes_range g f H hf.1 hf.2 hg).1

/-- C1, as the specification states it, fails: after a frame of 10 rows has
left bar 0 at 10, a frame of 1 row with a silent bar leaves
`magnitudes[0] = lastMagnitudes[0] = 8`, outside `[0, 1]`. Both frames
have non-negative input, `maxMagnitude = 1 > 0` and `height ≥ 0`. -/
theorem C1_counterexample :
    Frame.valid ⟨10, 1, 1, ofList [1]⟩ ∧ Frame.valid ⟨1, 1, 1, ofList [0]⟩
    ∧ (updateMagnitudes (runFrames Globals.init [⟨10, 1, 1, ofList [1]⟩])
        1 1 1 (ofList [0])).1 0 = 8
    ∧ (updateMagnitudes (runFrames Globals.init [⟨10, 1, 1, ofList [1]⟩])
        1 1 1 (ofList [0])).2.lastMagnitudes 0 = 8
    ∧ ¬ ((updateMagnitudes (runFrames Globals.init [⟨10, 1, 1, ofList [1]⟩])
        1 1 1 (ofList [0])).1 0 ≤ ((1 : Int) : ℚ)) := by
  have hlast : (runFrames Globals.init [⟨10, 1, 1, ofList [1]⟩]).lastMagnitudes 0 = 10 := by
    simp only [runFrames]
    rw [(updateMagnitudes_apply _ _ _ _ _ _).2]
    norm_num [movingAverage_eq, ofList, Globals.init]
  have hval : (updateMagnitudes (runFrames Globals.init [⟨10, 1, 1, ofList [1]⟩])
        1 1 1 (ofList [0])).1 0 = 8 := by
    rw [(updateMagnitudes_apply _ _ _ _ _ _).1, hlast]
    norm_num [movingAverage_eq, ofList]
  refine ⟨⟨by norm_num, by norm_num, fun i _ => ofList_nonneg _ (by simp) i⟩,
    ⟨by norm_num, by norm_num, fun i _ => ofList_nonneg _ (by simp) i⟩, hval, ?_, ?_⟩
  · rw [(updateMagnitudes_apply _ _ _ _ _ _).2, hlast]
    norm_num [movingAverage_eq, ofList]
  · rw [hval]
    norm_num

/-- C1, amended: in every sequence of frames that starts from the initial
globals, each frame having non-negative input magnitudes,
`maxMagnitude > 0` and `height ≥ 0` (row and bar counts may change from
frame to frame), after `updateMagnitudes` has run on the last frame every
`magnitudes[i]` and every stored `lastMagnitudes[i]` with `i < B` lies in
`[0, H]`, for every `H` that no row count of the sequence exceeds; so it
lies in `[0, height]` when no earlier frame had more rows than this one. -/
theorem C1_range_amended (fs : List Frame) (f : Frame) (H : Int)
    (hfs : ∀ f1, f1 ∈ fs → f1.valid ∧ f1.height ≤ H) (hf : f.valid) (hH : f.height ≤ H)
    (i : Nat) (hi : i < f.numBars) :
    (0 ≤ (updateMagnitudes (runFrames Globals.init fs)
          f.height f.numBars f.maxMagnitude f.magnitudes).1 i
      ∧ (updateMagnitudes (runFrames Globals.init fs)
          f.height f.numBars f.maxMagnitude f.magnitudes).1 i ≤ (H : ℚ))
    ∧ (0 ≤ (updateMagnitudes (runFrames Globals.init fs)
          f.height f.numBars f.maxMagnitude f.magnitudes).2.lastMagnitudes i
      ∧ (updateMagnitudes (runFrames Globals.init fs)
          f.height f.numBars f.maxMagnitude f.magnitudes).2.lastMagnitudes i ≤ (H : ℚ)) := by
  have hH' : (f.height : ℚ) ≤ (H : ℚ) := by exact_mod_cast hH
  have hH0 : (0 : ℚ) ≤ (H : ℚ) := by
    have : (0 : Int) ≤ H := le_trans hf.1 hH
    exact_mod_cast this
  have hg := runFrames_range fs Globals.init (H : ℚ)
    (fun f1 hf1 => ⟨(hfs f1 hf1).1, by exact_mod_cast (hfs f1 hf1).2⟩)
    (fun k => by simp [Globals.init, hH0])
  have h := updateMagnitudes_range (runFrames Globals.init fs) f (H : ℚ) hf hH' hg
  exact ⟨h.2 i hi, h.1 i⟩

/-- C1, amended, on a sequence of three frames whose row counts grow
(2, 3, 3) and whose bar counts change (2, 1, 2). -/
theorem C1_range_amended_witness :
    (0 ≤ (updateMagnitudes
          (runFrames Globals.init [⟨2, 2, 1, ofList [1, 2]⟩, ⟨3, 1, 2, ofList [4]⟩])
          3 2 1 (ofList [0, 5])).1 1
      ∧ (updateMagnitudes
          (runFrames Globals.init [⟨2, 2, 1, ofList [1, 2]⟩, ⟨3, 1, 2, ofList [4]⟩])
          3 2 1 (ofList [0, 5])).1 1 ≤ ((3 : Int) : ℚ))
    ∧ (0 ≤ (updateMagnitudes
          (runFrames Globals.init [⟨2, 2, 1, ofList [1, 2]⟩, ⟨3, 1, 2, ofList [4]⟩])
          3 2 1 (ofList [0, 5])).2.lastMagnitudes 1
      ∧ (updateMagnitudes
          (runFrames Globals.init [⟨2, 2, 1, ofList [1, 2]⟩, ⟨3, 1, 2, ofList [4]⟩])
          3 2 1 (ofList [0, 5])).2.lastMagnitudes 1 ≤ ((3 : Int) : ℚ)) := by
  have hv := ofList_nonneg
  refine C1_range_amended [⟨2, 2, 1, ofList [1, 2]⟩, ⟨3, 1, 2, ofList [4]⟩]
    ⟨3, 2, 1, ofList [0, 5]⟩ 3 ?_ ⟨by norm_num, by norm_num, fun i _ => hv _ (by simp) i⟩
    (le_refl _) 1 (by norm_num)
  intro f1 hf1
  simp only [List.mem_cons, List.mem_singleton, List.not_mem_nil, or_false] at hf1
  rcases hf1 with rfl | rfl
  · exact ⟨⟨by norm_num, by norm_num, fun i _ => hv _ (by simp) i⟩, by norm_num⟩
  · exact ⟨⟨by norm_num, by norm_num, fun i _ => hv _ (by simp) i⟩, by norm_num⟩

/-! ## C2: the sentinel is never replaced -/

/-- C2 on the code: with the sentinel `-1` in `lastMax`, one bar and the
series `[5]`, `calcMaxMagnitude` returns the frame's maximum `5`, but
`lastMax` is still `-1` after the call: the early `return maxMagnitude`
of line 121 skips the assignment to `lastMax`. -/
theorem C2_sentinel_kept :
    Globals.init.lastMax = -1
    ∧ (calcMaxMagnitude Globals.init 1 (ofList [5])).1 = 5
    ∧ (calcMaxMagnitude Globals.init 1 (ofList [5])).2.lastMax = -1 := by
  have h : Globals.init.lastMax < 0 := by norm_num [Globals.init]
  rw [calcMaxMagnitude_sentinel _ _ _ h]
  refine ⟨rfl, ?_, rfl⟩
  norm_num [frameMax, forUpTo, ofList]

/-! ## C3: the maximum is taken before the cross-bin smoothing -/

/-- C3, as the specification states it, fails: on the raw series
`[0, 3, 0]` (three bars, eight rows, initial globals) the smoothed series
is `[3/2, 1, 3/2]` with maximum `3/2`, but the divisor that `calc` passes
to `updateMagnitudes` is `3`, the maximum of the raw series; bar 0 ends at
`4`, where the smoothed maximum as divisor would give `8`. -/
theorem C3_counterexample :
    (calcMaxMagnitude Globals.init 3 (ofList [0, 3, 0])).1 = 3
    ∧ frameMax 3 (smoothMagnitudes 3 (ofList [0, 3, 0])) = 3 / 2
    ∧ (calcTail Globals.init 8 3 (ofList [0, 3, 0])).1 0 = 4
    ∧ (updateMagnitudes Globals.init 8 3
        (frameMax 3 (smoothMagnitudes 3 (ofList [0, 3, 0]))) (ofList [0, 3, 0])).1 0 = 8 := by
  have h : Globals.init.lastMax < 0 := by norm_num [Globals.init]
  have hraw : frameMax 3 (ofList [0, 3, 0]) = 3 := by
    norm_num [frameMax, forUpTo, ofList]
  have hsm : frameMax 3 (smoothMagnitudes 3 (ofList [0, 3, 0])) = 3 / 2 := by
    simp only [frameMax, forUpTo, smoothMagnitudes_apply, movingAverage_eq]
    norm_num [ofList]
  refine ⟨?_, hsm, ?_, ?_⟩
  · rw [calcMaxMagnitude_sentinel _ _ _ h]
    exact hraw
  · simp only [calcTail]
    rw [calcMaxMagnitude_sentinel _ _ _ h]
    simp only []
    rw [(updateMagnitudes_apply _ _ _ _ _ _).1, hraw]
    norm_num [movingAverage_eq, ofList, Globals.init]
  · rw [(updateMagnitudes_apply _ _ _ _ _ _).1, hsm]
    norm_num [movingAverage_eq, ofList, Globals.init]

/-- C3, amended: for every magnitude series, the frame maximum that `calc`
uses for max tracking is the maximum of the raw series it extracted (the
largest of `0` and the raw values), taken before the cross-bin smoothing;
the divisor `D` is that maximum while `lastMax` holds the sentinel, and
`0.8 * lastMax + 0.2 *` that maximum otherwise; the smoothed value of each
bar is then divided by `D`. -/
theorem C3_max_of_raw (g : Globals) (height : Int) (numBars : Nat) (raw : Nat → ℚ) :
    (0 ≤ frameMax numBars raw
      ∧ (∀ i, i < numBars → raw i ≤ frameMax numBars raw)
      ∧ (frameMax numBars raw = 0 ∨ ∃ i, i < numBars ∧ raw i = frameMax numBars raw))
    ∧ (calcMaxMagnitude g numBars raw).1
        = (if g.lastMax < 0 then frameMax numBars raw
           else 8 / 10 * g.lastMax + 2 / 10 * frameMax numBars raw)
    ∧ ∀ i, i < numBars →
        (calcTail g height numBars raw).1 i
          = max (min (smoothMagnitudes numBars raw i / (calcMaxMagnitude g numBars raw).1) 1
                  * (height : ℚ))
              (g.lastMagnitudes i * (8 / 10)) := by
  refine ⟨⟨frameMax_nonneg _ _, le_frameMax _ _, frameMax_attained _ _⟩, ?_, ?_⟩
  · by_cases h : g.lastMax < 0
    · rw [calcMaxMagnitude_sentinel _ _ _ h, if_pos h]
    · rw [if_neg h]
      exact (calcMaxMagnitude_running g numBars raw (not_lt.mp h)).1
  · intro i hi
    have hl : (calcMaxMagnitude g numBars raw).2.lastMagnitudes = g.lastMagnitudes := by
      by_cases h : g.lastMax < 0
      · rw [calcMaxMagnitude_sentinel _ _ _ h]
      · exact (calcMaxMagnitude_running g numBars raw (not_lt.mp h)).2.2
    simp only [calcTail]
    rw [(updateMagnitudes_apply _ _ _ _ _ _).1, if_pos hi, hl, smoothMagnitudes_apply, if_pos hi]

/-! ## C4: attack and decay -/

/-- The third loop with `float` cells, cell by cell: below the bound both
arrays hold the value of `decayValueF` on the cells as they were before
the loop; the other cells are untouched. -/
theorem forUpTo_decayStepF (height : Int) (maxMagnitude : ℚ) (n : Nat)
    (s : (Nat → FloatVal) × (Nat → FloatVal)) (k : Nat) :
    ((forUpTo (decayStepF height maxMagnitude) n s).1 k
        = if k < n then decayValueF height maxMagnitude (s.1 k) (s.2 k) else s.1 k)
    ∧ ((forUpTo (decayStepF height maxMagnitude) n s).2 k
        = if k < n then decayValueF height maxMagnitude (s.1 k) (s.2 k) else s.2 k) := by
  induction n generalizing k with
  | zero => simp [forUpTo]
  | succ n ih =>
    simp only [forUpTo, decayStepF]
    by_cases hk : k = n
    · subst hk
      simp only [store_self]
      rw [(ih k).1, (ih k).2]
      simp
    · rw [store_other _ _ _ _ hk, store_other _ _ _ _ hk, (ih k).1, (ih k).2]
      by_cases hlt : k < n
      · simp [hlt, Nat.lt_succ_of_lt hlt]
      · have : ¬ k < n + 1 := by omega
        simp [hlt, this]

/-- With a divisor that is not zero, on numbers, the value of a bar is the
number that the exact model gives. -/
theorem decayValueF_num (height : Int) (maxMagnitude : ℚ) (x l : ℚ) (hM : maxMagnitude ≠ 0) :
    decayValueF height maxMagnitude (FloatVal.num x) (FloatVal.num l)
      = FloatVal.num (max (min (x / maxMagnitude) 1 * (height : ℚ)) (l * (8 / 10))) := by
  simp only [decayValueF, FloatVal.divBy, if_neg hM, FloatVal.gt, exponent, decreaseFactor]
  by_cases h1 : x / maxMagnitude > 1
  · have hmin : min (x / maxMagnitude) 1 = 1 := min_eq_right h1.le
    simp only [h1, decide_True, if_true, FloatVal.pow, FloatVal.mulBy, FloatVal.lt, pow_one, hmin]
    by_cases h2 : 1 * (height : ℚ) < l * (8 / 10)
    · simp only [h2, decide_True, if_true, max_eq_right h2.le]
    · simp only [h2, decide_False, Bool.false_eq_true, if_false, max_eq_left (not_lt.mp h2)]
  · have hmin : min (x / maxMagnitude) 1 = x / maxMagnitude := min_eq_left (not_lt.mp h1)
    simp only [h1, decide_False, Bool.false_eq_true, if_false, FloatVal.pow, FloatVal.mulBy,
      FloatVal.lt, pow_one, hmin]
    by_cases h2 : x / maxMagnitude * (height : ℚ) < l * (8 / 10)
    · simp only [h2, decide_True, if_true, max_eq_right h2.le]
    · simp only [h2, decide_False, Bool.false_eq_true, if_false, max_eq_left (not_lt.mp h2)]

/-- Where the divisor is not zero and the previous values are numbers, the
model with the special values computes what the exact model computes. -/
theorem updateMagnitudesF_num (g : Globals) (height : Int) (width : Nat) (maxMagnitude : ℚ)
    (magnitudes : Nat → ℚ) (hM : maxMagnitude ≠ 0) (k : Nat) :
    (updateMagnitudesF (fun i => FloatVal.num (g.lastMagnitudes i)) height width maxMagnitude
        magnitudes).1 k
      = FloatVal.num ((updateMagnitudes g height width maxMagnitude magnitudes).1 k)
    ∧ (updateMagnitudesF (fun i => FloatVal.num (g.lastMagnitudes i)) height width maxMagnitude
        magnitudes).2 k
      = FloatVal.num
          ((updateMagnitudes g height width maxMagnitude magnitudes).2.lastMagnitudes k) := by
  have h := forUpTo_decayStepF height maxMagnitude width
    (fun i => FloatVal.num (smoothMagnitudes width magnitudes i),
      fun i => FloatVal.num (g.lastMagnitudes i)) k
  have ha := updateMagnitudes_apply g height width maxMagnitude magnitudes k
  simp only [updateMagnitudesF]
  rw [h.1, h.2, ha.1, ha.2]
  by_cases hk : k < width
  · simp only [if_pos hk, decayValueF_num _ _ _ _ hM, smoothMagnitudes_apply]
    exact ⟨trivial, trivial⟩
  · simp only [if_neg hk, smoothMagnitudes_apply]
    exact ⟨trivial, trivial⟩

/-- C4, as the specification states it, fails: on a silent frame (one bar
of smoothed value `0`, divisor `maxMagnitude = 0`, four rows, previous
value `5`) the quotient is `0 / 0`; `updateMagnitudes` stores NaN in
`magnitudes[0]` and in `lastMagnitudes[0]`, which is no number: neither
`max(scaled, 0.8 * 5)` nor at least `0.8 * 5 = 4`. -/
theorem C4_counterexample :
    smoothMagnitudes 1 (ofList [0]) 0 = 0
    ∧ (updateMagnitudesF (fun _ => FloatVal.num 5) 4 1 0 (ofList [0])).1 0 = FloatVal.nan
    ∧ (updateMagnitudesF (fun _ => FloatVal.num 5) 4 1 0 (ofList [0])).2 0 = FloatVal.nan
    ∧ ¬ ∃ q : ℚ,
        (updateMagnitudesF (fun _ => FloatVal.num 5) 4 1 0 (ofList [0])).1 0 = FloatVal.num q := by
  have hs : smoothMagnitudes 1 (ofList [0]) 0 = 0 := by
    rw [smoothMagnitudes_apply, movingAverage_eq]
    norm_num [ofList]
  have hv : decayValueF 4 0 (FloatVal.num 0) (FloatVal.num 5) = FloatVal.nan := by
    simp [decayValueF, FloatVal.divBy, FloatVal.gt, FloatVal.pow, FloatVal.mulBy, FloatVal.lt]
  have h := forUpTo_decayStepF 4 0 1
    (fun i => FloatVal.num (smoothMagnitudes 1 (ofList [0]) i), fun _ => FloatVal.num 5) 0
  have h1 : (updateMagnitudesF (fun _ => FloatVal.num 5) 4 1 0 (ofList [0])).1 0
      = FloatVal.nan := by
    simp only [updateMagnitudesF]
    rw [h.1]
    simp only [Nat.lt_one_iff, if_true, hs]
    exact hv
  have h2 : (updateMagnitudesF (fun _ => FloatVal.num 5) 4 1 0 (ofList [0])).2 0
      = FloatVal.nan := by
    simp only [updateMagnitudesF]
    rw [h.2]
    simp only [Nat.lt_one_iff, if_true, hs]
    exact hv
  refine ⟨hs, h1, h2, ?_⟩
  rintro ⟨q, hq⟩
  rw [h1] at hq
  exact FloatVal.noConfusion hq

/-- C4, amended: for every bar `i < B`, when `maxMagnitude ≠ 0` and the
bar's previous value is a number, with
`scaled = min(smoothed[i] / maxMagnitude, 1) * height`, `updateMagnitudes`
leaves `magnitudes[i] = max(scaled, 0.8 * lastMagnitudes_old[i])` and
stores the same value in `lastMagnitudes[i]`; the final value is at least
`0.8` times the previous one, and it is exactly `0.8 * previous` when
`scaled = 0` and the previous value is not negative. -/
theorem C4_attack_decay (lastMagnitudes : Nat → FloatVal) (height : Int) (B : Nat)
    (maxMagnitude : ℚ) (magnitudes : Nat → ℚ) (hM : maxMagnitude ≠ 0) (i : Nat) (hi : i < B)
    (previous : ℚ) (hp : lastMagnitudes i = FloatVal.num previous) :
    (updateMagnitudesF lastMagnitudes height B maxMagnitude magnitudes).1 i
        = FloatVal.num
            (max (min (smoothMagnitudes B magnitudes i / maxMagnitude) 1 * (height : ℚ))
              (8 / 10 * previous))
    ∧ (updateMagnitudesF lastMagnitudes height B maxMagnitude magnitudes).2 i
        = (updateMagnitudesF lastMagnitudes height B maxMagnitude magnitudes).1 i
    ∧ 8 / 10 * previous
        ≤ max (min (smoothMagnitudes B magnitudes i / maxMagnitude) 1 * (height : ℚ))
            (8 / 10 * previous)
    ∧ (min (smoothMagnitudes B magnitudes i / maxMagnitude) 1 * (height : ℚ) = 0 →
        0 ≤ previous →
        (updateMagnitudesF lastMagnitudes height B maxMagnitude magnitudes).1 i
          = FloatVal.num (8 / 10 * previous)) := by
  have h := forUpTo_decayStepF height maxMagnitude B
    (fun i => FloatVal.num (smoothMagnitudes B magnitudes i), lastMagnitudes) i
  simp only [if_pos hi, hp, decayValueF_num _ _ _ _ hM] at h
  have hc : previous * (8 / 10) = 8 / 10 * previous := mul_comm _ _
  rw [hc] at h
  have e1 : (updateMagnitudesF lastMagnitudes height B maxMagnitude magnitudes).1 i
      = FloatVal.num
          (max (min (smoothMagnitudes B magnitudes i / maxMagnitude) 1 * (height : ℚ))
            (8 / 10 * previous)) := h.1
  have e2 : (updateMagnitudesF lastMagnitudes height B maxMagnitude magnitudes).2 i
      = FloatVal.num
          (max (min (smoothMagnitudes B magnitudes i / maxMagnitude) 1 * (height : ℚ))
            (8 / 10 * previous)) := h.2
  refine ⟨e1, by rw [e1, e2], le_max_right _ _, ?_⟩
  intro h0 hl
  rw [e1, h0, max_eq_right (by positivity)]

/-- C4, amended, at a concrete call: three bars `[0, 0, 6]`, four rows,
divisor `2`, previous values `5` everywhere; bar 0 has `scaled = 0` and
falls to `4`. -/
theorem C4_attack_decay_witness :
    (2 : ℚ) ≠ 0 ∧ 0 < 3
    ∧ (updateMagnitudesF (fun _ => FloatVal.num 5) 4 3 2 (ofList [0, 0, 6])).1 0
        = FloatVal.num 4
    ∧ (updateMagnitudesF (fun _ => FloatVal.num 5) 4 3 2 (ofList [0, 0, 6])).2 0
        = FloatVal.num 4 := by
  have h := C4_attack_decay (fun _ => FloatVal.num 5) 4 3 2 (ofList [0, 0, 6]) (by norm_num) 0
    (by norm_num) 5 rfl
  have hs : smoothMagnitudes 3 (ofList [0, 0, 6]) 0 = 0 := by
    rw [smoothMagnitudes_apply, movingAverage_eq]
    norm_num [ofList]
  have hv : (updateMagnitudesF (fun _ => FloatVal.num 5) 4 3 2 (ofList [0, 0, 6])).1 0
      = FloatVal.num 4 := by
    rw [h.2.2.2 (by rw [hs]; norm_num) (by norm_num)]
    norm_num
  exact ⟨by norm_num, by norm_num, hv, by rw [h.2.1, hv]⟩

/-! ## C5: exponential smoothing of the running max -/

/-- Repeated calls of `calcMaxMagnitude` on one series: `lastMax` stays
non-negative and its distance to the frame maximum shrinks by `0.8` per
call. -/
theorem calcMaxMagnitude_iterate (g : Globals) (B : Nat) (m : Nat → ℚ) (hr : 0 ≤ g.lastMax)
    (n : Nat) :
    0 ≤ ((fun g1 => (calcMaxMagnitude g1 B m).2)^[n] g).lastMax
    ∧ ((fun g1 => (calcMaxMagnitude g1 B m).2)^[n] g).lastMax - frameMax B m
        = (8 / 10) ^ n * (g.lastMax - frameMax B m) := by
  induction n with
  | zero => simp [hr]
  | succ n ih =>
    rw [Function.iterate_succ_apply']
    have h := (calcMaxMagnitude_running _ B m ih.1).2.1
    have hM := frameMax_nonneg B m
    constructor
    · rw [h]
      have := ih.1
      positivity
    · rw [h, pow_succ]
      have h2 := ih.2
      linear_combination (8 / 10 : ℚ) * h2

/-- C5: for every initialised running max `r ≥ 0` and every non-negative
series whose maximum is `M`, one call of `calcMaxMagnitude` sets `lastMax`
to `0.8 * r + 0.2 * M` and returns it; this value lies between `r` and `M`
inclusive, and after `n` consecutive calls on the same series
`|lastMax - M| = 0.8 ^ n * |r - M|`. -/
theorem C5_exponential_smoothing (g : Globals) (B : Nat) (m : Nat → ℚ) (M : ℚ)
    (hr : 0 ≤ g.lastMax) (hpos : ∀ i, i < B → 0 ≤ m i)
    (hle : ∀ i, i < B → m i ≤ M) (hex : ∃ i, i < B ∧ m i = M) :
    (calcMaxMagnitude g B m).2.lastMax = 8 / 10 * g.lastMax + 2 / 10 * M
    ∧ (calcMaxMagnitude g B m).1 = (calcMaxMagnitude g B m).2.lastMax
    ∧ min g.lastMax M ≤ (calcMaxMagnitude g B m).2.lastMax
    ∧ (calcMaxMagnitude g B m).2.lastMax ≤ max g.lastMax M
    ∧ ∀ n : Nat, |((fun g1 => (calcMaxMagnitude g1 B m).2)^[n] g).lastMax - M|
        = (8 / 10) ^ n * |g.lastMax - M| := by
  have hM : frameMax B m = M := frameMax_eq_of_isMax B m M hle hex hpos
  have h := calcMaxMagnitude_running g B m hr
  rw [hM] at h
  refine ⟨h.2.1, by rw [h.1, h.2.1], ?_, ?_, ?_⟩
  · rw [h.2.1]
    rcases le_total g.lastMax M with hc | hc
    · rw [min_eq_left hc]; linarith
    · rw [min_eq_right hc]; linarith
  · rw [h.2.1]
    rcases le_total g.lastMax M with hc | hc
    · rw [max_eq_right hc]; linarith
    · rw [max_eq_left hc]; linarith
  · intro n
    have hn := (calcMaxMagnitude_iterate g B m hr n).2
    rw [hM] at hn
    rw [hn, abs_mul, abs_of_nonneg (by positivity : (0 : ℚ) ≤ (8 / 10) ^ n)]

/-- C5 at a concrete state: running max `10`, series `[0, 5, 2]` with
maximum `5`; one call gives `9`, two calls leave the distance
`0.8 ^ 2 * 5`. -/
theorem C5_exponential_smoothing_witness :
    (calcMaxMagnitude ⟨10, fun _ => 0⟩ 3 (ofList [0, 5, 2])).2.lastMax = 9
    ∧ (calcMaxMagnitude ⟨10, fun _ => 0⟩ 3 (ofList [0, 5, 2])).1 = 9
    ∧ |((fun g1 => (calcMaxMagnitude g1 3 (ofList [0, 5, 2])).2)^[2] ⟨10, fun _ => 0⟩).lastMax - 5|
        = 16 / 5 := by
  have hle : ∀ i, i < 3 → ofList [0, 5, 2] i ≤ 5 := by
    intro i hi
    interval_cases i <;> norm_num [ofList]
  have h := C5_exponential_smoothing ⟨10, fun _ => 0⟩ 3 (ofList [0, 5, 2]) 5 (by norm_num)
    (fun i _ => ofList_nonneg _ (by simp) i) hle ⟨1, by norm_num, by norm_num [ofList]⟩
  refine ⟨?_, ?_, ?_⟩
  · rw [h.1]; norm_num
  · rw [h.2.1, h.1]; norm_num
  · rw [h.2.2.2.2 2]; norm_num [abs_of_nonneg]

/-! ## C6: the cross-bin smoothing -/

/-- The indices among `i - 1`, `i`, `i + 1` that lie in `[0, B)`. -/
theorem window_filter_eq (B i : Nat) (hi : i < B) :
    (Finset.range B).filter (fun k => k + 1 = i ∨ k = i ∨ k = i + 1)
      = if 1 ≤ i then (if i + 1 < B then {i - 1, i, i + 1} else {i - 1, i})
        else (if i + 1 < B then {i, i + 1} else {i}) := by
  ext k
  split_ifs <;>
    simp only [Finset.mem_filter, Finset.mem_range, Finset.mem_insert, Finset.mem_singleton] <;>
    omega

/-- C6: for every series of length `B ≥ 1` and every `i < B`, the value
that stage 1 leaves in bar `i` is the arithmetic mean of the original values
at the indices among `{i - 1, i, i + 1}` that lie in `[0, B)`: three values
for an interior bar, two for the first and the last bar, one when `B = 1`;
all of them are read from the series as it was before the call.  So each
smoothed value lies between any lower and upper bound of the original
series, its minimum and maximum among them. -/
theorem C6_box_filter (B : Nat) (m : Nat → ℚ) (i : Nat) (hB : 1 ≤ B) (hi : i < B) :
    smoothMagnitudes B m i
        = (∑ k in (Finset.range B).filter (fun k => k + 1 = i ∨ k = i ∨ k = i + 1), m k)
          / (((Finset.range B).filter (fun k => k + 1 = i ∨ k = i ∨ k = i + 1)).card : ℚ)
    ∧ (1 ≤ i → i + 1 < B → smoothMagnitudes B m i = (m (i - 1) + m i + m (i + 1)) / 3)
    ∧ (i = 0 → 1 < B → smoothMagnitudes B m i = (m 0 + m 1) / 2)
    ∧ (1 ≤ i → i + 1 = B → smoothMagnitudes B m i = (m (i - 1) + m i) / 2)
    ∧ (B = 1 → smoothMagnitudes B m i = m 0)
    ∧ ∀ lo hi : ℚ, (∀ k, k < B → lo ≤ m k ∧ m k ≤ hi) →
        lo ≤ smoothMagnitudes B m i ∧ smoothMagnitudes B m i ≤ hi := by
  have hs : smoothMagnitudes B m i = movingAverage B m i := by
    rw [smoothMagnitudes_apply, if_pos hi]
  rw [hs, movingAverage_eq, window_filter_eq B i hi]
  refine ⟨?_, ?_, ?_, ?_, ?_, ?_⟩
  · by_cases h1 : 1 ≤ i <;> by_cases h2 : i + 1 < B
    · simp only [if_pos h1, if_pos h2]
      have a1 : i - 1 ∉ ({i, i + 1} : Finset Nat) := by
        simp only [Finset.mem_insert, Finset.mem_singleton]; omega
      have a2 : i ∉ ({i + 1} : Finset Nat) := by
        simp only [Finset.mem_singleton]; omega
      rw [Finset.sum_insert a1, Finset.sum_insert a2, Finset.sum_singleton,
        Finset.card_insert_of_not_mem a1, Finset.card_insert_of_not_mem a2,
        Finset.card_singleton]
      norm_num
      ring
    · simp only [if_pos h1, if_neg h2]
      have a1 : i - 1 ∉ ({i} : Finset Nat) := by
        simp only [Finset.mem_singleton]; omega
      rw [Finset.sum_insert a1, Finset.sum_singleton, Finset.card_insert_of_not_mem a1,
        Finset.card_singleton]
      norm_num
      ring
    · simp only [if_neg h1, if_pos h2]
      have a2 : i ∉ ({i + 1} : Finset Nat) := by
        simp only [Finset.mem_singleton]; omega
      rw [Finset.sum_insert a2, Finset.sum_singleton, Finset.card_insert_of_not_mem a2,
        Finset.card_singleton]
      norm_num
    · simp only [if_neg h1, if_neg h2]
      simp
  · intro h1 h2
    rw [if_pos h1, if_pos h2]
    ring
  · intro h1 h2
    subst h1
    simp [h2]
  · intro h1 h2
    have h3 : ¬ i + 1 < B := by omega
    rw [if_pos h1, if_neg h3]
    ring
  · intro h1
    have h0 : i = 0 := by omega
    subst h0
    subst h1
    simp
  · intro lo hi1 hb
    have b0 := hb i hi
    by_cases h1 : 1 ≤ i <;> by_cases h2 : i + 1 < B
    · have bl := hb (i - 1) (by omega)
      have br := hb (i + 1) h2
      rw [if_pos h1, if_pos h2]
      constructor
      · rw [le_div_iff₀ (by norm_num)]; linarith [b0.1, bl.1, br.1]
      · rw [div_le_iff₀ (by norm_num)]; linarith [b0.2, bl.2, br.2]
    · have bl := hb (i - 1) (by omega)
      rw [if_pos h1, if_neg h2]
      constructor
      · rw [le_div_iff₀ (by norm_num)]; linarith [b0.1, bl.1]
      · rw [div_le_iff₀ (by norm_num)]; linarith [b0.2, bl.2]
    · have br := hb (i + 1) h2
      rw [if_neg h1, if_pos h2]
      constructor
      · rw [le_div_iff₀ (by norm_num)]; linarith [b0.1, br.1]
      · rw [div_le_iff₀ (by norm_num)]; linarith [b0.2, br.2]
    · rw [if_neg h1, if_neg h2]
      exact b0

/-- C6 on the series `[1, 5, 3, 8]`: bar 1 becomes `(1 + 5 + 3) / 3 = 3`
and bar 3, the last one, `(3 + 8) / 2`. -/
theorem C6_box_filter_witness :
    smoothMagnitudes 4 (ofList [1, 5, 3, 8]) 1 = 3
    ∧ smoothMagnitudes 4 (ofList [1, 5, 3, 8]) 3 = 11 / 2 := by
  have h1 := C6_box_filter 4 (ofList [1, 5, 3, 8]) 1 (by norm_num) (by norm_num)
  have h3 := C6_box_filter 4 (ofList [1, 5, 3, 8]) 3 (by norm_num) (by norm_num)
  refine ⟨?_, ?_⟩
  · rw [h1.2.1 (by norm_num) (by norm_num)]; norm_num [ofList]
  · rw [h3.2.2.2.1 (by norm_num) (by norm_num)]; norm_num [ofList]

/-! ## C7, C8: sample normalisation -/

theorem toBits32_and_low24 (s : Int) :
    ((toBits32 s &&& 0xFFFFFF : Nat) : Int) = s % 2 ^ 24 := by
  have h : (0xFFFFFF : Nat) = 2 ^ 24 - 1 := by norm_num
  rw [h, Nat.and_pow_two_sub_one_eq_mod, toBits32]
  have h0 : (0 : Int) ≤ s % 2 ^ 32 := Int.emod_nonneg _ (by norm_num)
  rw [Int.natCast_mod, Int.toNat_of_nonneg h0]
  push_cast
  exact Int.emod_emod_of_dvd s (by norm_num)

theorem and_bit23 (u : Nat) (hu : u < 2 ^ 24) :
    (u &&& 0x800000 ≠ 0) ↔ 2 ^ 23 ≤ u := by
  have h : (0x800000 : Nat) = 2 ^ 23 := by norm_num
  rw [h, Nat.and_two_pow, Nat.testBit_to_div_mod]
  norm_num at hu ⊢
  by_cases hc : u / 8388608 % 2 = 1
  · simp only [hc, decide_True, Bool.toNat_true, true_iff]
    omega
  · simp only [hc, decide_False, Bool.toNat_false, false_iff]
    omega

theorem or_high8 (u : Nat) (hu : u < 2 ^ 24) : u ||| 0xFF000000 = 0xFF000000 + u := by
  have h : (0xFF000000 : Nat) = 2 ^ 24 * 255 := by norm_num
  rw [h, Nat.lor_comm, Nat.mul_add_lt_is_or hu]

theorem signExtend24_eq (s : Int) :
    signExtend24 s = if s % 2 ^ 24 < 2 ^ 23 then s % 2 ^ 24 else s % 2 ^ 24 - 2 ^ 24 := by
  have hlow := toBits32_and_low24 s
  have hu : toBits32 s &&& 0xFFFFFF < 2 ^ 24 := by
    have h : (0xFFFFFF : Nat) = 2 ^ 24 - 1 := by norm_num
    rw [h, Nat.and_pow_two_sub_one_eq_mod]
    exact Nat.mod_lt _ (by norm_num)
  simp only [signExtend24]
  generalize toBits32 s &&& 0xFFFFFF = u at hlow hu
  rw [← hlow]
  by_cases hb : 2 ^ 23 ≤ u
  · rw [if_pos ((and_bit23 u hu).mpr hb), or_high8 u hu]
    have h1 : ¬ ((u : Int) < 2 ^ 23) := by push_cast; omega
    rw [if_neg h1, ofBits32]
    have h2 : (0xFF000000 + u) % 2 ^ 32 = 0xFF000000 + u := Nat.mod_eq_of_lt (by omega)
    rw [h2, if_neg (by omega)]
    push_cast
    ring
  · rw [if_neg (fun h => hb ((and_bit23 u hu).mp h))]
    have h1 : ((u : Int) < 2 ^ 23) := by push_cast; omega
    rw [if_pos h1, ofBits32]
    have h2 : u % 2 ^ 32 = u := Nat.mod_eq_of_lt (by omega)
    rw [h2, if_pos (by omega)]

/-- Bit 23 of the pattern of `s` is set exactly when `s mod 2^24` is at
least `2^23`. -/
theorem testBit23_iff (s : Int) : (toBits32 s).testBit 23 = true ↔ 2 ^ 23 ≤ s % 2 ^ 24 := by
  have h0 : (0 : Int) ≤ s % 2 ^ 32 := Int.emod_nonneg _ (by norm_num)
  have h1 : ((toBits32 s : Nat) : Int) = s % 2 ^ 32 := by
    rw [toBits32, Int.toNat_of_nonneg h0]
  have h2 : (s % 2 ^ 32) % 2 ^ 24 = s % 2 ^ 24 := Int.emod_emod_of_dvd s (by norm_num)
  rw [Nat.testBit_to_div_mod, ← h2, ← h1]
  norm_num
  omega

/-- A sample that is already in the 24-bit range is its own sign
extension. -/
theorem signExtend24_of_range (s : Int) (h1 : -8388608 ≤ s) (h2 : s ≤ 8388607) :
    signExtend24 s = s := by
  rw [signExtend24_eq]
  norm_num
  split_ifs <;> omega

/-- C7, as the specification states it, fails: the smallest 8-bit sample
`0` is normalised to `-128/127`, below `-1`; so is the smallest 24-bit
sample, to `-8388608/8388607`. -/
theorem C7_counterexample :
    normalizeSample 8 0 = some (-128 / 127) ∧ (-128 / 127 : ℚ) < -1
    ∧ normalizeSample 24 (-8388608) = some (-8388608 / 8388607)
    ∧ (-8388608 / 8388607 : ℚ) < -1 := by
  refine ⟨?_, by norm_num, ?_, by norm_num⟩
  · norm_num [normalizeSample]
  · have h := signExtend24_of_range (-8388608) (by norm_num) (by norm_num)
    simp only [normalizeSample]
    rw [h]
    norm_num

/-- C7, amended: for every supported bit depth and every sample in that
depth's range the normalised value, in exact arithmetic, lies in
`[-128/127, 1]`: in `[-1, 32767/32768]` at 16 bits, in
`[-1, 2147483647/2147483648]` at 32 bits (the divisor `2147483647.0f` is
`2^31`), in `[-128/127, 1]` at 8 bits and in `[-8388608/8388607, 1]` at 24
bits (sample already sign extended).  The smallest sample is mapped to `-1`
at 16 and 32 bits, and below `-1`, to the lower end of the interval above,
at 8 and 24 bits; the largest sample is mapped to `1` at 8 and 24 bits, to
`32767/32768` at 16 bits and to `2147483647/2147483648` at 32 bits. -/
theorem C7_normalized_range (s : Int) :
    (0 ≤ s → s ≤ 255 →
      ∃ v, normalizeSample 8 s = some v ∧ -(128 / 127) ≤ v ∧ v ≤ 1)
    ∧ (-32768 ≤ s → s ≤ 32767 →
      ∃ v, normalizeSample 16 s = some v ∧ -1 ≤ v ∧ v ≤ 32767 / 32768)
    ∧ (-8388608 ≤ s → s ≤ 8388607 →
      ∃ v, normalizeSample 24 s = some v ∧ -(8388608 / 8388607) ≤ v ∧ v ≤ 1)
    ∧ (-2147483648 ≤ s → s ≤ 2147483647 →
      ∃ v, normalizeSample 32 s = some v ∧ -1 ≤ v ∧ v ≤ 2147483647 / 2147483648)
    ∧ normalizeSample 8 0 = some (-(128 / 127)) ∧ normalizeSample 8 255 = some 1
    ∧ normalizeSample 16 (-32768) = some (-1)
    ∧ normalizeSample 16 32767 = some (32767 / 32768)
    ∧ normalizeSample 24 (-8388608) = some (-(8388608 / 8388607))
    ∧ normalizeSample 24 8388607 = some 1
    ∧ normalizeSample 32 (-2147483648) = some (-1)
    ∧ normalizeSample 32 2147483647 = some (2147483647 / 2147483648) := by
  refine ⟨?_, ?_, ?_, ?_, ?_, ?_, ?_, ?_, ?_, ?_, ?_, ?_⟩
  · intro h1 h2
    have a1 : (0 : ℚ) ≤ (s : ℚ) := by exact_mod_cast h1
    have a2 : (s : ℚ) ≤ 255 := by exact_mod_cast h2
    refine ⟨((s : ℚ) - 128) / 127, by simp [normalizeSample], ?_, ?_⟩
    · rw [le_div_iff₀ (by norm_num)]; linarith
    · rw [div_le_iff₀ (by norm_num)]; linarith
  · intro h1 h2
    have a1 : (-32768 : ℚ) ≤ (s : ℚ) := by exact_mod_cast h1
    have a2 : (s : ℚ) ≤ 32767 := by exact_mod_cast h2
    refine ⟨(s : ℚ) / 32768, by simp [normalizeSample], ?_, ?_⟩
    · rw [le_div_iff₀ (by norm_num)]; linarith
    · rw [div_le_iff₀ (by norm_num)]; linarith
  · intro h1 h2
    have a1 : (-8388608 : ℚ) ≤ (s : ℚ) := by exact_mod_cast h1
    have a2 : (s : ℚ) ≤ 8388607 := by exact_mod_cast h2
    refine ⟨(s : ℚ) / 8388607, ?_, ?_, ?_⟩
    · simp only [normalizeSample]
      rw [signExtend24_of_range s h1 h2]
      norm_num
    · rw [le_div_iff₀ (by norm_num)]; linarith
    · rw [div_le_iff₀ (by norm_num)]; linarith
  · intro h1 h2
    have a1 : (-2147483648 : ℚ) ≤ (s : ℚ) := by exact_mod_cast h1
    have a2 : (s : ℚ) ≤ 2147483647 := by exact_mod_cast h2
    refine ⟨(s : ℚ) / 2147483648, by simp [normalizeSample], ?_, ?_⟩
    · rw [le_div_iff₀ (by norm_num)]; linarith
    · rw [div_le_iff₀ (by norm_num)]; linarith
  · norm_num [normalizeSample]
  · norm_num [normalizeSample]
  · norm_num [normalizeSample]
  · norm_num [normalizeSample]
  · simp only [normalizeSample]
    rw [signExtend24_of_range (-8388608) (by norm_num) (by norm_num)]
    norm_num
  · simp only [normalizeSample]
    rw [signExtend24_of_range 8388607 (by norm_num) (by norm_num)]
    norm_num
  · norm_num [normalizeSample]
  · norm_num [normalizeSample]

/-- C7, amended, at the sample `100`, which is in the range of every
depth. -/
theorem C7_normalized_range_witness :
    (∃ v, normalizeSample 8 100 = some v ∧ -(128 / 127) ≤ v ∧ v ≤ 1)
    ∧ (∃ v, normalizeSample 16 100 = some v ∧ -1 ≤ v ∧ v ≤ 32767 / 32768)
    ∧ (∃ v, normalizeSample 24 100 = some v ∧ -(8388608 / 8388607) ≤ v ∧ v ≤ 1)
    ∧ (∃ v, normalizeSample 32 100 = some v ∧ -1 ≤ v ∧ v ≤ 2147483647 / 2147483648) :=
  ⟨(C7_normalized_range 100).1 (by norm_num) (by norm_num),
   (C7_normalized_range 100).2.1 (by norm_num) (by norm_num),
   (C7_normalized_range 100).2.2.1 (by norm_num) (by norm_num),
   (C7_normalized_range 100).2.2.2.1 (by norm_num) (by norm_num)⟩

/-- C8: at bit depth 24, for every raw sample `s` (any `int`), with
`u = s mod 2^24`, the normalised value is `(u - 2^24) / 8388607` when bit
23 of `s` is set and `u / 8388607` otherwise; it is the same for any two
samples with the same low 24 bits; it is strictly negative when bit 23 is
set and non-negative when bit 23 is clear. -/
theorem C8_sign_extension (s : Int) :
    normalizeSample 24 s
        = some (if (toBits32 s).testBit 23 = true
                then (((s % 2 ^ 24 : Int) : ℚ) - 2 ^ 24) / 8388607
                else ((s % 2 ^ 24 : Int) : ℚ) / 8388607)
    ∧ (∀ t : Int, t % 2 ^ 24 = s % 2 ^ 24 → normalizeSample 24 t = normalizeSample 24 s)
    ∧ ((toBits32 s).testBit 23 = true → ∃ v, normalizeSample 24 s = some v ∧ v < 0)
    ∧ ((toBits32 s).testBit 23 = false → ∃ v, normalizeSample 24 s = some v ∧ 0 ≤ v) := by
  have hn : ∀ t : Int, normalizeSample 24 t = some ((signExtend24 t : ℚ) / 8388607) := by
    intro t
    simp [normalizeSample]
  have hu0 : (0 : Int) ≤ s % 2 ^ 24 := Int.emod_nonneg _ (by norm_num)
  have hu1 : s % 2 ^ 24 < 2 ^ 24 := Int.emod_lt_of_pos _ (by norm_num)
  have hq0 : (0 : ℚ) ≤ ((s % 2 ^ 24 : Int) : ℚ) := by exact_mod_cast hu0
  have hq1 : ((s % 2 ^ 24 : Int) : ℚ) < 2 ^ 24 := by exact_mod_cast hu1
  have hv : (signExtend24 s : ℚ) / 8388607
      = if (toBits32 s).testBit 23 = true
        then (((s % 2 ^ 24 : Int) : ℚ) - 2 ^ 24) / 8388607
        else ((s % 2 ^ 24 : Int) : ℚ) / 8388607 := by
    rw [signExtend24_eq]
    by_cases hb : (toBits32 s).testBit 23 = true
    · have h1 : ¬ (s % 2 ^ 24 < 2 ^ 23) := not_lt.mpr ((testBit23_iff s).mp hb)
      rw [if_pos hb, if_neg h1]
      push_cast
      rfl
    · have h1 : s % 2 ^ 24 < 2 ^ 23 := by
        by_contra hc
        exact hb ((testBit23_iff s).mpr (not_lt.mp hc))
      rw [if_neg hb, if_pos h1]
  refine ⟨by rw [hn, hv], ?_, ?_, ?_⟩
  · intro t ht
    rw [hn, hn, signExtend24_eq, signExtend24_eq, ht]
  · intro hb
    refine ⟨_, by rw [hn, hv], ?_⟩
    rw [if_pos hb]
    apply div_neg_of_neg_of_pos
    · linarith
    · norm_num
  · intro hb
    refine ⟨_, by rw [hn, hv], ?_⟩
    rw [if_neg (by simp [hb])]
    positivity

/-- C8 at the raw sample `0x1800000`: bit 23 is set, bit 24 too; the
value is that of `0x800000`, namely `-8388608/8388607`. -/
theorem C8_sign_extension_witness :
    normalizeSample 24 0x1800000 = normalizeSample 24 0x800000
    ∧ ∃ v, normalizeSample 24 0x800000 = some v ∧ v < 0 :=
  ⟨(C8_sign_extension 0x800000).2.1 0x1800000 (by norm_num),
   (C8_sign_extension 0x800000).2.2.1 (by decide)⟩

/-! ## C9: magnitude extraction -/

/-- A guarded loop that writes `f i` to cell `i`: the cells from `i` on,
below `i + fuel` and below the guard's bound `b`, are written. -/
theorem forWhile_store (b : Nat) (f : Nat → ℚ) (fuel i : Nat) (a : Nat → ℚ) (k : Nat) :
    forWhile (fun i => decide (i < b)) (fun i m => store m i (f i)) fuel i a k
      = if i ≤ k ∧ k < i + fuel ∧ k < b then f k else a k := by
  induction fuel generalizing i a with
  | zero =>
    have h : ¬ (i ≤ k ∧ k < i + 0 ∧ k < b) := by omega
    simp only [forWhile, if_neg h]
  | succ fuel ih =>
    simp only [forWhile]
    by_cases hb : i < b
    · simp only [hb, decide_True, if_true]
      rw [ih]
      by_cases hk : k = i
      · subst hk
        have h1 : ¬ (k + 1 ≤ k ∧ k < k + 1 + fuel ∧ k < b) := by omega
        have h2 : k ≤ k ∧ k < k + (fuel + 1) ∧ k < b := by omega
        rw [if_neg h1, if_pos h2, store_self]
      · rw [store_other _ _ _ _ hk]
        by_cases h1 : i + 1 ≤ k ∧ k < i + 1 + fuel ∧ k < b
        · have h2 : i ≤ k ∧ k < i + (fuel + 1) ∧ k < b := by omega
          rw [if_pos h1, if_pos h2]
        · have h2 : ¬ (i ≤ k ∧ k < i + (fuel + 1) ∧ k < b) := by omega
          rw [if_neg h1, if_neg h2]
    · have h2 : ¬ (i ≤ k ∧ k < i + (fuel + 1) ∧ k < b) := by omega
      simp only [hb, decide_False, if_neg h2]
      simp

theorem clearMagnitudes_apply (width : Nat) (m : Nat → ℚ) (k : Nat) :
    clearMagnitudes width m k = if k < width then 0 else m k := by
  simp only [clearMagnitudes]
  exact forUpTo_store (fun _ => 0) width m k

/-- The extracted series, cell by cell. -/
theorem extractMagnitudes_apply (E : Extern) (numBars j : Nat) (fftOutput : CBuf)
    (m : Nat → ℚ) (k : Nat) :
    extractMagnitudes E numBars j fftOutput m k
      = if k < numBars ∧ k < j / 2 then
          E.sqrtf ((fftOutput k).1 * (fftOutput k).1 + (fftOutput k).2 * (fftOutput k).2)
        else if k < numBars then 0 else m k := by
  simp only [extractMagnitudes]
  rw [forWhile_store (j / 2)
    (fun i => E.sqrtf ((fftOutput i).1 * (fftOutput i).1 + (fftOutput i).2 * (fftOutput i).2)),
    clearMagnitudes_apply]
  by_cases h : k < numBars ∧ k < j / 2
  · have h2 : 0 ≤ k ∧ k < 0 + numBars ∧ k < j / 2 := by omega
    rw [if_pos h, if_pos h2]
  · have h2 : ¬ (0 ≤ k ∧ k < 0 + numBars ∧ k < j / 2) := by omega
    rw [if_neg h, if_neg h2]

/-- At a supported bit depth every sample is normalised. -/
theorem normalizeSample_supported (bitDepth sample : Int)
    (hd : bitDepth = 8 ∨ bitDepth = 16 ∨ bitDepth = 24 ∨ bitDepth = 32) :
    ∃ v, normalizeSample bitDepth sample = some v := by
  rcases hd with h | h | h | h <;> subst h <;> simp [normalizeSample]

/-- At a supported bit depth the sample loop neither returns nor breaks:
it ends with `j` advanced by the number of turns. -/
theorem fillInput_supported (audioBuffer : Nat → Int) (bitDepth bufferSize : Int)
    (hd : bitDepth = 8 ∨ bitDepth = 16 ∨ bitDepth = 24 ∨ bitDepth = 32)
    (fuel i j : Nat) (fftInput : CBuf) (h : j + fuel ≤ bufferSize.toNat) :
    ∃ b, fillInput audioBuffer bitDepth bufferSize fuel i (fftInput, j)
      = Except.ok (b, j + fuel) := by
  induction fuel generalizing i j fftInput with
  | zero => exact ⟨fftInput, rfl⟩
  | succ fuel ih =>
    have hj : ¬ ((j : Int) ≥ bufferSize) := by omega
    obtain ⟨v, hv⟩ := normalizeSample_supported bitDepth (audioBuffer i) hd
    simp only [fillInput, if_neg hj, hv]
    obtain ⟨b, hb⟩ := ih (i + 1) (j + 1) (store fftInput j (v, 0)) (by omega)
    exact ⟨b, by rw [hb]; congr 2; omega⟩

/-- C9: when `calc` runs on a non-NULL audio buffer at a supported bit
depth, with `N` the buffer size and `B = numBars`, the series it hands to
the smoother (`calcMaxMagnitude`, then `updateMagnitudes`) is the one
extracted from the output buffer of the transform: `sqrtf(re[i]^2 +
im[i]^2)` for every `i < min(B, N / 2)` and `0` for every `i` with
`min(B, N / 2) ≤ i < B`, whatever `magnitudes` held before; every one of
the `B` entries is non-negative (`sqrtf` returning no negative number). -/
theorem C9_extraction (E : Extern) (bufferSize height : Int) (numBars : Nat)
    (audioBuffer : Nat → Int) (bitDepth : Int) (plan : CBuf → CBuf) (s : CalcState)
    (hd : bitDepth = 8 ∨ bitDepth = 16 ∨ bitDepth = 24 ∨ bitDepth = 32) :
    ((calc_ E bufferSize height numBars (some audioBuffer) bitDepth plan s).magnitudes,
      (calc_ E bufferSize height numBars (some audioBuffer) bitDepth plan s).g)
        = calcTail s.g height numBars
            (extractMagnitudes E numBars bufferSize.toNat
              (calc_ E bufferSize height numBars (some audioBuffer) bitDepth plan s).fftOutput
              s.magnitudes)
    ∧ (∀ (out : CBuf) (old : Nat → ℚ),
        (∀ i, i < min numBars (bufferSize.toNat / 2) →
          extractMagnitudes E numBars bufferSize.toNat out old i
            = E.sqrtf ((out i).1 * (out i).1 + (out i).2 * (out i).2))
        ∧ (∀ i, min numBars (bufferSize.toNat / 2) ≤ i → i < numBars →
          extractMagnitudes E numBars bufferSize.toNat out old i = 0)
        ∧ ((∀ x, 0 ≤ E.sqrtf x) → ∀ i, i < numBars →
          0 ≤ extractMagnitudes E numBars bufferSize.toNat out old i)) := by
  constructor
  · obtain ⟨b, hb⟩ := fillInput_supported audioBuffer bitDepth bufferSize hd
      bufferSize.toNat 0 0 s.fftInput (by omega)
    rw [Nat.zero_add] at hb
    simp only [calc_, hb]
  · intro out old
    refine ⟨?_, ?_, ?_⟩
    · intro i hi
      have h : i < numBars ∧ i < bufferSize.toNat / 2 := by
        rw [lt_min_iff] at hi; exact hi
      rw [extractMagnitudes_apply, if_pos h]
    · intro i h1 h2
      have h : ¬ (i < numBars ∧ i < bufferSize.toNat / 2) := by
        rw [min_le_iff] at h1; omega
      rw [extractMagnitudes_apply, if_neg h, if_pos h2]
    · intro hs i hi
      rw [extractMagnitudes_apply]
      split_ifs
      · exact hs _
      · exact le_refl _

/-- C9 on a buffer of four 16-bit samples and three bars, with the integer
square root for `sqrtf`: bar 0 is `5` from the bin `(3, 4)`, bar 1 is `13`
from the bin `(5, 12)`, and bar 2, beyond `N / 2 = 2`, is `0` although the
array held `7` there. -/
theorem C9_extraction_witness :
    extractMagnitudes ⟨fun x => (Nat.sqrt x.num.toNat : ℚ), fun _ _ => 1⟩ 3 ((4 : Int).toNat)
        (fun i => if i = 0 then (3, 4) else (5, 12)) (fun _ => 7) 0 = 5
    ∧ extractMagnitudes ⟨fun x => (Nat.sqrt x.num.toNat : ℚ), fun _ _ => 1⟩ 3 ((4 : Int).toNat)
        (fun i => if i = 0 then (3, 4) else (5, 12)) (fun _ => 7) 2 = 0
    ∧ 0 ≤ extractMagnitudes ⟨fun x => (Nat.sqrt x.num.toNat : ℚ), fun _ _ => 1⟩ 3
        ((4 : Int).toNat) (fun i => if i = 0 then (3, 4) else (5, 12)) (fun _ => 7) 1 := by
  have h := (C9_extraction ⟨fun x => (Nat.sqrt x.num.toNat : ℚ), fun _ _ => 1⟩ 4 5 3
    (fun _ => 0) 16 (fun b => b) ⟨fun _ => (0, 0), fun _ => (0, 0), fun _ => 7, Globals.init⟩
    (by norm_num)).2 (fun i => if i = 0 then (3, 4) else (5, 12)) (fun _ => 7)
  refine ⟨?_, h.2.1 2 (by decide) (by decide), h.2.2 (fun x => Nat.cast_nonneg _) 1 (by decide)⟩
  rw [h.1 0 (by decide)]
  have h25 : Nat.sqrt (Int.toNat 25) = 5 := by
    rw [show Int.toNat 25 = 5 * 5 from rfl]
    exact Nat.sqrt_eq 5
  norm_num [h25]

/-! ## C10: the glyph of one cell -/

/-- For `m ≥ 0` the first decimal digit `⌊10 m⌋ mod 10` is `⌊10 m⌋ - 10 ⌊m⌋`. -/
theorem floor_ten_mod (m : ℚ) :
    ⌊m * 10⌋ % 10 = ⌊m * 10⌋ - 10 * ⌊m⌋ := by
  have h1 : (⌊m⌋ : ℚ) ≤ m := Int.floor_le m
  have h2 : m < (⌊m⌋ : ℚ) + 1 := Int.lt_floor_add_one m
  have h3 : 10 * ⌊m⌋ ≤ ⌊m * 10⌋ := by
    rw [Int.le_floor]; push_cast; linarith
  have h4 : ⌊m * 10⌋ < 10 * ⌊m⌋ + 10 := by
    rw [Int.floor_lt]; push_cast; linarith
  omega

/-- The level that `printSpectrum` computes, `(int) fmod(m * 10, 10)`, is
the first decimal digit of `m` when `m ≥ 0`. -/
theorem firstDecimalDigit_eq (m : ℚ) (hm : 0 ≤ m) :
    truncToInt (fmod (m * 10) 10) = ⌊m * 10⌋ % 10 := by
  have hdiv : m * 10 / 10 = m := by field_simp
  have h1 : (⌊m⌋ : ℚ) ≤ m := Int.floor_le m
  have ht : truncToInt m = ⌊m⌋ := by simp [truncToInt, hm]
  have hnn : (0 : ℚ) ≤ m * 10 - (⌊m⌋ : ℚ) * 10 := by linarith
  rw [floor_ten_mod, fmod, hdiv, ht, truncToInt, if_pos hnn]
  have h5 : m * 10 - (⌊m⌋ : ℚ) * 10 = m * 10 - ((10 * ⌊m⌋ : Int) : ℚ) := by
    push_cast; ring
  rw [h5, Int.floor_sub_int]

theorem firstDecimalDigit_range (m : ℚ) : 0 ≤ ⌊m * 10⌋ % 10 ∧ ⌊m * 10⌋ % 10 ≤ 9 := by
  constructor <;> omega

/-- The glyph of a level in `0..9`: the ramp entry, level `9` giving the
entry `8`. -/
theorem getUpwardMotionChar_digit (L : Int) (h0 : 0 ≤ L) (h9 : L ≤ 9) :
    getUpwardMotionChar L
      = upwardMotionChars.getD (if L = 9 then 8 else L).toNat "" := by
  simp only [getUpwardMotionChar]
  by_cases h : L = 9
  · subst h
    simp
  · have h1 : ¬ (L < 0 ∨ L > 8) := by omega
    rw [if_neg h1, if_neg h]

/-- C10: with playback neither paused nor stopped, for every row `j ≥ 1`
and every magnitude `m ≥ 0`, the cell printed is the full block when
`m ≥ j`, with and without Unicode (`getUpwardMotionChar(10)` is the entry
8 of the ramp); otherwise, with Unicode and `m + 1 ≥ j`, it is `ramp[L]`
for `L = floor((10 m) mod 10)`, the first decimal digit of `m`, which lies
in `0..9`, `L = 9` giving entry 8 and `L = 0` a space; otherwise it is
blank.  So `m = 0` at row 1 is blank under both Unicode settings,
`m ≥ rowCount` is the full block at row 1, and `m = j - 0.3` at row `j`
with Unicode is level 7. -/
theorem C10_glyph_cell (u : Bool) (j : Int) (m : ℚ) (hj : 1 ≤ j) (hm : 0 ≤ m) :
    (truncToInt (fmod (m * 10) 10) = ⌊m * 10⌋ % 10
      ∧ ⌊m * 10⌋ % 10 = ⌊Int.fract m * 10⌋
      ∧ 0 ≤ ⌊m * 10⌋ % 10 ∧ ⌊m * 10⌋ % 10 ≤ 9)
    ∧ ((j : ℚ) ≤ m → printCell u j m = " █")
    ∧ (m < (j : ℚ) → u = true → (j : ℚ) ≤ m + 1 →
        printCell u j m
          = " " ++ upwardMotionChars.getD
              (if ⌊m * 10⌋ % 10 = 9 then 8 else ⌊m * 10⌋ % 10).toNat "")
    ∧ (m < (j : ℚ) → (u = false ∨ m + 1 < (j : ℚ)) → printCell u j m = "  ")
    ∧ (getUpwardMotionChar 10 = "█" ∧ upwardMotionChars.getD 8 "" = "█"
        ∧ upwardMotionChars.getD 0 "" = " ")
    ∧ printCell u 1 0 = "  "
    ∧ (∀ rowCount : Int, 1 ≤ rowCount → (rowCount : ℚ) ≤ m → printCell u 1 m = " █")
    ∧ printCell true j ((j : ℚ) - 3 / 10) = " ▇" := by
  have hj0 : j ≥ 0 := by omega
  have hfull : ∀ (u1 : Bool) (j1 : Int) (m1 : ℚ), j1 ≥ 0 → (j1 : ℚ) ≤ m1 →
      printCell u1 j1 m1 = " █" := by
    intro u1 j1 m1 h1 h2
    have h3 : m1 ≥ (j1 : ℚ) := h2
    simp only [printCell, if_pos h1, if_pos h3]
    cases u1
    · simp
    · decide
  have hpart : ∀ (j1 : Int) (m1 : ℚ), j1 ≥ 0 → 0 ≤ m1 → m1 < (j1 : ℚ) → (j1 : ℚ) ≤ m1 + 1 →
      printCell true j1 m1
        = " " ++ upwardMotionChars.getD
            (if ⌊m1 * 10⌋ % 10 = 9 then 8 else ⌊m1 * 10⌋ % 10).toNat "" := by
    intro j1 m1 h1 h0 h2 h3
    have h4 : ¬ (m1 ≥ (j1 : ℚ)) := not_le.mpr h2
    have h5 : m1 + 1 ≥ (j1 : ℚ) := h3
    simp only [printCell, if_pos h1, if_neg h4, and_true, if_pos h5]
    rw [firstDecimalDigit_eq m1 h0,
      getUpwardMotionChar_digit _ (firstDecimalDigit_range m1).1 (firstDecimalDigit_range m1).2]
  refine ⟨⟨firstDecimalDigit_eq m hm, ?_, firstDecimalDigit_range m⟩, hfull u j m hj0, ?_, ?_,
    ⟨by decide, by decide, by decide⟩, ?_, ?_, ?_⟩
  · rw [floor_ten_mod]
    have h5 : Int.fract m * 10 = m * 10 - ((10 * ⌊m⌋ : Int) : ℚ) := by
      rw [Int.fract]; push_cast; ring
    rw [h5, Int.floor_sub_int]
  · intro h1 hu h2
    subst hu
    exact hpart j m hj0 hm h1 h2
  · intro h1 h2
    have h4 : ¬ (m ≥ (j : ℚ)) := not_le.mpr h1
    have h5 : ¬ (m + 1 ≥ (j : ℚ) ∧ u = true) := by
      rcases h2 with h2 | h2
      · simp [h2]
      · intro h; exact absurd h.1 (not_le.mpr h2)
    simp only [printCell, if_pos hj0, if_neg h4, if_neg h5]
  · cases u
    · have h4 : ¬ ((0 : ℚ) ≥ ((1 : Int) : ℚ)) := by norm_num
      simp only [printCell, if_neg h4]
      simp
    · rw [hpart 1 0 (by norm_num) (le_refl _) (by norm_num) (by norm_num)]
      norm_num
      decide
  · intro rowCount h1 h2
    have h3 : (1 : ℚ) ≤ (rowCount : ℚ) := by exact_mod_cast h1
    exact hfull u 1 m (by norm_num) (by push_cast; linarith)
  · have hq : (1 : ℚ) ≤ (j : ℚ) := by exact_mod_cast hj
    rw [hpart j ((j : ℚ) - 3 / 10) hj0 (by linarith) (by linarith) (by linarith)]
    have h7 : ((j : ℚ) - 3 / 10) * 10 = ((10 * j - 3 : Int) : ℚ) := by
      push_cast; ring
    have h8 : (10 * j - 3) % 10 = 7 := by omega
    rw [h7, Int.floor_intCast, h8]
    decide

/-- C10 at row 3: a magnitude of `3.5` prints the full block with and
without Unicode, `2.5` prints level 5 with Unicode and a blank without,
`2.95` prints the entry 8 (level 9, clamped), `1.5` prints a blank. -/
theorem C10_glyph_cell_witness :
    printCell false 3 (7 / 2) = " █" ∧ printCell true 3 (7 / 2) = " █"
    ∧ printCell true 3 (5 / 2) = " ▅" ∧ printCell false 3 (5 / 2) = "  "
    ∧ printCell true 3 (59 / 20) = " █" ∧ printCell true 3 (3 / 2) = "  " := by
  have f5 : ⌊(5 / 2 : ℚ) * 10⌋ % 10 = 5 := by
    rw [show (5 / 2 : ℚ) * 10 = ((25 : Int) : ℚ) by norm_num, Int.floor_intCast]; decide
  have f9 : ⌊(59 / 20 : ℚ) * 10⌋ % 10 = 9 := by
    have : ⌊(59 / 20 : ℚ) * 10⌋ = 29 := by
      rw [Int.floor_eq_iff]; norm_num
    rw [this]; decide
  refine ⟨(C10_glyph_cell false 3 (7 / 2) (by norm_num) (by norm_num)).2.1 (by norm_num),
    (C10_glyph_cell true 3 (7 / 2) (by norm_num) (by norm_num)).2.1 (by norm_num), ?_,
    (C10_glyph_cell false 3 (5 / 2) (by norm_num) (by norm_num)).2.2.2.1 (by norm_num)
      (Or.inl rfl), ?_,
    (C10_glyph_cell true 3 (3 / 2) (by norm_num) (by norm_num)).2.2.2.1 (by norm_num)
      (Or.inr (by norm_num))⟩
  · rw [(C10_glyph_cell true 3 (5 / 2) (by norm_num) (by norm_num)).2.2.1 (by norm_num) rfl
      (by norm_num), f5]
    decide
  · rw [(C10_glyph_cell true 3 (59 / 20) (by norm_num) (by norm_num)).2.2.1 (by norm_num) rfl
      (by norm_num), f9]
    decide

/-! ## Lemmas on `printSpectrum` -/

theorem rowsDownFrom_length (n : Nat) : (rowsDownFrom n).length = n := by
  induction n with
  | zero => rfl
  | succ n ih => simp [rowsDownFrom, ih]

theorem mem_rowsDownFrom (n j : Nat) : j ∈ rowsDownFrom n ↔ 1 ≤ j ∧ j ≤ n := by
  induction n with
  | zero => simp [rowsDownFrom]; omega
  | succ n ih => simp only [rowsDownFrom, List.mem_cons, ih]; omega

/-- A loop that appends `f i` in turn `i` appends the items
`f 0, …, f (n - 1)`. -/
theorem forUpTo_append (f : Nat → Out) (n : Nat) (out : List Out) :
    forUpTo (fun i o => o ++ [f i]) n out = out ++ (List.range n).map f := by
  induction n with
  | zero => simp [forUpTo]
  | succ n ih => simp [forUpTo, ih, List.range_succ]

/-- A downward loop that appends `f j` in turn `j` appends
`f n, …, f 1`. -/
theorem forDownFrom_append (f : Nat → List Out) (n : Nat) (out : List Out) :
    forDownFrom (fun j o => o ++ f j) n out = out ++ (rowsDownFrom n).flatMap f := by
  induction n generalizing out with
  | zero => simp [forDownFrom, rowsDownFrom]
  | succ n ih => simp [forDownFrom, rowsDownFrom, ih]

/-- The cells that the code prints in a row `j ≥ 0` are those of the
specification, appended to the output. -/
theorem printCells_eq (u p s : Bool) (width : Nat) (m : Nat → ℚ) (j : Int) (hj : 0 ≤ j)
    (out : List Out) :
    printCells u p s width m j out = out ++ rowCells u p s width m j := by
  have hj1 : j ≥ 0 := hj
  simp only [printCells, rowCells]
  split_ifs
  · rw [forUpTo_append (fun _ => Out.text "  ")]
    congr 1
    induction width with
    | zero => rfl
    | succ n ih => rw [List.range_succ, List.map_append, ih, List.replicate_succ']; rfl
  · exact forUpTo_append (fun i => Out.text (printCell u j (m i))) width out

theorem printColor_append (height : Int) (c : PixelData) (upc : Bool) (j : Int)
    (out : List Out) :
    printColor height c upc j out = out ++ printColor height c upc j [] := by
  simp only [printColor]
  split_ifs <;> simp

/-- One row, as a list of items appended to the output. -/
theorem printRow_eq (u p s : Bool) (height : Int) (width : Nat) (m : Nat → ℚ) (c : PixelData)
    (ind : Int) (upc : Bool) (j : Int) (hj : 0 ≤ j) (out : List Out) :
    printRow u p s height width m c ind upc j out
      = out ++ ([Out.text "\r", Out.printBlankSpaces ind] ++ printColor height c upc j []
          ++ rowCells u p s width m j ++ [Out.text "\n "]) := by
  simp only [printRow]
  rw [printCells_eq u p s width m j hj, printColor_append]
  simp

/-- What `printSpectrum` writes is a block of `height` rows, with the
colour items of `printColor` and the cells of `rowCells`. -/
theorem printSpectrum_eq (u p s : Bool) (height : Int) (width : Nat) (m : Nat → ℚ)
    (c : PixelData) (ind : Int) (upc : Bool) :
    printSpectrum u p s height width m c ind upc
      = blockOf height.toNat ind (fun j => printColor height c upc (j : Int) [])
          (fun j => rowCells u p s width m (j : Int)) := by
  simp only [printSpectrum, blockOf]
  have h : (fun (j : Nat) (o : List Out) => printRow u p s height width m c ind upc (j : Int) o)
      = (fun (j : Nat) (o : List Out) => o ++ ([Out.text "\r", Out.printBlankSpaces ind]
          ++ printColor height c upc (j : Int) [] ++ rowCells u p s width m (j : Int)
          ++ [Out.text "\n "])) := by
    funext j o
    exact printRow_eq u p s height width m c ind upc (j : Int) (Int.natCast_nonneg j) o
  rw [h, forDownFrom_append]

theorem rowCells_length (u p s : Bool) (width : Nat) (m : Nat → ℚ) (j : Int) :
    (rowCells u p s width m j).length = width := by
  simp only [rowCells]
  split_ifs <;> simp

/-- Every bar cell is a piece of text: no colour item is among the cells. -/
theorem rowCells_text (u p s : Bool) (width : Nat) (m : Nat → ℚ) (j : Int) (x : Out)
    (hx : x ∈ rowCells u p s width m j) : ∃ t, x = Out.text t := by
  simp only [rowCells] at hx
  split_ifs at hx
  · exact ⟨"  ", (List.mem_replicate.mp hx).2⟩
  · obtain ⟨i, _, hi⟩ := List.mem_map.mp hx
    exact ⟨_, hi.symm⟩

/-- An `int` operation whose exact value is in the range of `int` gives
that value. -/
theorem wrapInt32_of_range (x : Int) (h1 : -2147483648 ≤ x) (h2 : x ≤ 2147483647) :
    wrapInt32 x = x := by
  simp only [wrapInt32, ofBits32, toBits32]
  norm_num
  split_ifs <;> omega

/-- One channel of `increaseLuminosity`: for a channel in `0..255` and a
boost that is not negative, the sum fitting an `int`, the sum capped at
255. -/
theorem toChannel_boost (c : Nat) (amount : Int) (hc : c ≤ 255) (ha : 0 ≤ amount)
    (hs : (c : Int) + amount ≤ 2147483647) :
    ((toChannel (if wrapInt32 ((c : Int) + amount) ≤ 255
        then wrapInt32 ((c : Int) + amount) else 255) : Nat) : Int)
      = min ((c : Int) + amount) 255 := by
  rw [wrapInt32_of_range _ (by omega) hs]
  simp only [toChannel]
  split_ifs with h
  · rw [min_eq_left h]; omega
  · rw [min_eq_right (by omega)]; omega

/-- The boost of row `j` of a block of at most 23170 rows is the exact
product `4 * j * height`, and adding a channel to it does not overflow. -/
theorem rowBoost_of_range (height j : Int) (h1 : 1 ≤ j) (h2 : j ≤ height)
    (h3 : height ≤ 23170) :
    rowBoost height j = 4 * j * height ∧ 0 ≤ 4 * j * height
    ∧ 4 * j * height + 255 ≤ 2147483647 := by
  have hp : 0 ≤ j * height := by nlinarith
  have hq : j * height ≤ 536848900 := by nlinarith
  have e1 : wrapInt32 (j * height) = j * height := wrapInt32_of_range _ (by omega) (by omega)
  have e2 : wrapInt32 (j * height * 4) = j * height * 4 :=
    wrapInt32_of_range _ (by omega) (by omega)
  refine ⟨?_, ?_, ?_⟩
  · rw [rowBoost, e1, e2]; ring
  · nlinarith
  · nlinarith

/-! ## C11: paused or stopped -/

/-- C11: whenever `isPaused()` or `isStopped()` is true, for every height,
width, magnitude series and Unicode setting, `printSpectrum` still draws
all `height` rows, `height, …, 1`, and the cells of every row are `width`
blank cells (two spaces each); what is written is the same for any two
magnitude series and Unicode settings. -/
theorem C11_paused_blank (u p s : Bool) (height : Int) (width : Nat) (m : Nat → ℚ)
    (c : PixelData) (ind : Int) (upc : Bool) (hp : p = true ∨ s = true) :
    printSpectrum u p s height width m c ind upc
        = blockOf height.toNat ind (fun j => printColor height c upc (j : Int) [])
            (fun _ => List.replicate width (Out.text "  "))
    ∧ (rowsDownFrom height.toNat).length = height.toNat
    ∧ ∀ (u1 : Bool) (m1 : Nat → ℚ),
        printSpectrum u1 p s height width m1 c ind upc
          = printSpectrum u p s height width m c ind upc := by
  have hps : (p || s) = true := by
    rcases hp with h | h <;> simp [h]
  have hc : ∀ (u1 : Bool) (m1 : Nat → ℚ),
      (fun j : Nat => rowCells u1 p s width m1 (j : Int))
        = (fun _ : Nat => List.replicate width (Out.text "  ")) := by
    intro u1 m1
    funext j
    simp only [rowCells, if_pos hps]
  refine ⟨?_, rowsDownFrom_length _, ?_⟩
  · rw [printSpectrum_eq, hc]
  · intro u1 m1
    rw [printSpectrum_eq, printSpectrum_eq, hc, hc]

/-- C11 at a paused frame of two rows and three bars with loud bars: the
block is two rows of three blank cells. -/
theorem C11_paused_blank_witness :
    printSpectrum true true false 2 3 (fun _ => 2) ⟨0, 0, 0⟩ 0 false
      = [Out.text "\n", Out.clearRestOfScreen,
         Out.text "\r", Out.printBlankSpaces 0, Out.setDefaultTextColor,
         Out.text "  ", Out.text "  ", Out.text "  ", Out.text "\n ",
         Out.text "\r", Out.printBlankSpaces 0, Out.setDefaultTextColor,
         Out.text "  ", Out.text "  ", Out.text "  ", Out.text "\n ",
         Out.text "\r", Out.fflush] := by
  rw [(C11_paused_blank true true false 2 3 (fun _ => 2) ⟨0, 0, 0⟩ 0 false (Or.inl rfl)).1]
  rfl

/-! ## C12: the luminosity boost -/

/-- C12, as the specification states it, fails: in a block of 23171 rows
the `int` product `j * height * 4` of the top row `j = 23171` overflows, and
with the colour `(1, 2, 3)` the row is coloured `(37, 38, 39)`, not
`(255, 255, 255)`; row 23169, two rows below, is coloured
`(255, 255, 255)`, so the higher row is the darker one. -/
theorem C12_counterexample :
    rowBoost 23171 23171 = -2147386332
    ∧ printColor 23171 ⟨1, 2, 3⟩ false 23171 [] = [Out.rgb 37 38 39]
    ∧ printColor 23171 ⟨1, 2, 3⟩ false 23169 [] = [Out.rgb 255 255 255] := by
  refine ⟨by decide, by decide, by decide⟩

/-- C12, amended: for every pixel with channels in `0..255` and every
`amount ≥ 0` for which no sum `c + amount` exceeds `INT_MAX = 2147483647`,
`increaseLuminosity` returns `min(c + amount, 255)` for each channel `c`,
never below `c` and never above 255; so for a colour that is not black,
with profile colouring disabled, in a block of `rowCount ≤ 23170` rows
(where `4 * j * rowCount + 255` fits an `int`) the colour of row `j`,
`1 ≤ j ≤ rowCount`, has the channels `min(c + 4 * j * rowCount, 255)`,
which do not decrease as `j` grows. -/
theorem C12_luminosity (pixel : PixelData) (amount : Int)
    (hr : pixel.r ≤ 255) (hg : pixel.g ≤ 255) (hb : pixel.b ≤ 255) (ha : 0 ≤ amount)
    (hro : (pixel.r : Int) + amount ≤ 2147483647)
    (hgo : (pixel.g : Int) + amount ≤ 2147483647)
    (hbo : (pixel.b : Int) + amount ≤ 2147483647) :
    (((increaseLuminosity pixel amount).r : Int) = min ((pixel.r : Int) + amount) 255
      ∧ ((increaseLuminosity pixel amount).g : Int) = min ((pixel.g : Int) + amount) 255
      ∧ ((increaseLuminosity pixel amount).b : Int) = min ((pixel.b : Int) + amount) 255)
    ∧ (pixel.r ≤ (increaseLuminosity pixel amount).r
      ∧ pixel.g ≤ (increaseLuminosity pixel amount).g
      ∧ pixel.b ≤ (increaseLuminosity pixel amount).b)
    ∧ ((increaseLuminosity pixel amount).r ≤ 255 ∧ (increaseLuminosity pixel amount).g ≤ 255
      ∧ (increaseLuminosity pixel amount).b ≤ 255)
    ∧ (∀ rowCount j : Int, 1 ≤ j → j ≤ rowCount → rowCount ≤ 23170 →
        (pixel.r ≠ 0 ∨ pixel.g ≠ 0 ∨ pixel.b ≠ 0) →
        printColor rowCount pixel false j []
          = [Out.rgb (min ((pixel.r : Int) + 4 * j * rowCount) 255).toNat
              (min ((pixel.g : Int) + 4 * j * rowCount) 255).toNat
              (min ((pixel.b : Int) + 4 * j * rowCount) 255).toNat])
    ∧ (∀ rowCount j j1 : Int, 1 ≤ j → j ≤ j1 → j1 ≤ rowCount → rowCount ≤ 23170 →
        (increaseLuminosity pixel (rowBoost rowCount j)).r
            ≤ (increaseLuminosity pixel (rowBoost rowCount j1)).r
        ∧ (increaseLuminosity pixel (rowBoost rowCount j)).g
            ≤ (increaseLuminosity pixel (rowBoost rowCount j1)).g
        ∧ (increaseLuminosity pixel (rowBoost rowCount j)).b
            ≤ (increaseLuminosity pixel (rowBoost rowCount j1)).b) := by
  have key : ∀ (c : Nat) (a : Int), c ≤ 255 → 0 ≤ a → (c : Int) + a ≤ 2147483647 →
      ((toChannel (if wrapInt32 ((c : Int) + a) ≤ 255
          then wrapInt32 ((c : Int) + a) else 255) : Nat) : Int)
        = min ((c : Int) + a) 255 := toChannel_boost
  have mono : ∀ (c : Nat) (a a1 : Int), c ≤ 255 → 0 ≤ a → a ≤ a1 →
      (c : Int) + a1 ≤ 2147483647 →
      toChannel (if wrapInt32 ((c : Int) + a) ≤ 255 then wrapInt32 ((c : Int) + a) else 255)
        ≤ toChannel (if wrapInt32 ((c : Int) + a1) ≤ 255
            then wrapInt32 ((c : Int) + a1) else 255) := by
    intro c a a1 hc h0 h1 h2
    have e1 := key c a hc h0 (by omega)
    have e2 := key c a1 hc (le_trans h0 h1) h2
    have : min ((c : Int) + a) 255 ≤ min ((c : Int) + a1) 255 :=
      min_le_min (by omega) (le_refl _)
    omega
  have er := key pixel.r amount hr ha hro
  have eg := key pixel.g amount hg ha hgo
  have eb := key pixel.b amount hb ha hbo
  refine ⟨⟨er, eg, eb⟩, ?_, ?_, ?_, ?_⟩
  · simp only [increaseLuminosity]
    refine ⟨?_, ?_, ?_⟩
    · have : (pixel.r : Int) ≤ min ((pixel.r : Int) + amount) 255 := le_min (by omega) (by omega)
      omega
    · have : (pixel.g : Int) ≤ min ((pixel.g : Int) + amount) 255 := le_min (by omega) (by omega)
      omega
    · have : (pixel.b : Int) ≤ min ((pixel.b : Int) + amount) 255 := le_min (by omega) (by omega)
      omega
  · simp only [increaseLuminosity]
    refine ⟨?_, ?_, ?_⟩
    · have := min_le_right ((pixel.r : Int) + amount) 255
      omega
    · have := min_le_right ((pixel.g : Int) + amount) 255
      omega
    · have := min_le_right ((pixel.b : Int) + amount) 255
      omega
  · intro rowCount j h1 h2 h3 hc
    obtain ⟨e, hamt, hsum⟩ := rowBoost_of_range rowCount j h1 h2 h3
    simp only [printColor, if_pos hc, Bool.not_false, if_true, List.nil_append,
      increaseLuminosity]
    rw [e, ← key pixel.r _ hr hamt (by omega), ← key pixel.g _ hg hamt (by omega),
      ← key pixel.b _ hb hamt (by omega)]
    simp
  · intro rowCount j j1 h1 h2 h3 h4
    obtain ⟨e, hamt, _⟩ := rowBoost_of_range rowCount j h1 (le_trans h2 h3) h4
    obtain ⟨e1, _, hsum1⟩ := rowBoost_of_range rowCount j1 (le_trans h1 h2) h3 h4
    have hrc : 0 ≤ rowCount := by omega
    have hle : 4 * j * rowCount ≤ 4 * j1 * rowCount := by nlinarith
    simp only [increaseLuminosity]
    rw [e, e1]
    exact ⟨mono _ _ _ hr hamt hle (by omega), mono _ _ _ hg hamt hle (by omega),
      mono _ _ _ hb hamt hle (by omega)⟩

/-- C12, amended, at the colour `(250, 10, 0)` boosted by `20`: the first
channel saturates at 255, the others are `30` and `20`. -/
theorem C12_luminosity_witness :
    ((increaseLuminosity ⟨250, 10, 0⟩ 20).r : Int) = 255
    ∧ ((increaseLuminosity ⟨250, 10, 0⟩ 20).g : Int) = 30
    ∧ ((increaseLuminosity ⟨250, 10, 0⟩ 20).b : Int) = 20 := by
  have h := (C12_luminosity ⟨250, 10, 0⟩ 20 (by decide) (by decide) (by decide) (by decide)
    (by decide) (by decide) (by decide)).1
  refine ⟨?_, ?_, ?_⟩
  · rw [h.1]; decide
  · rw [h.2.1]; decide
  · rw [h.2.2]; decide

/-! ## Lemmas on `drawSpectrumVisualizer` -/

/-- The array `magnitudes` of `drawSpectrumVisualizer` after its
initialisation. -/
theorem forUpTo_store_zero (n : Nat) :
    forUpTo (fun i (m : Nat → ℚ) => store m i 0) n (fun _ => 0) = fun _ => 0 := by
  funext k
  rw [forUpTo_store (fun _ => 0)]
  simp

/-- After `freeVisuals` both buffers are NULL, the other globals are as
they were. -/
theorem freeVisuals_eq (st : Program) :
    freeVisuals st = { st with fftInput := none, fftOutput := none } := by
  rcases st with ⟨g, bs, pbs, u, fi, fo⟩
  cases fi <;> cases fo <;> rfl

/-- When the buffers are ready, the reallocation block lets the frame go
on with two buffers; it leaves `lastMagnitudes` and `unicodeSupport` as
they were, and `lastMax` as it was or at the sentinel. -/
theorem reallocate_ready (H : Host) (st : Program) (hb : st.bufferSize = H.getBufferSize)
    (hr : buffersReady H st) :
    ∃ (st1 : Program) (bi bo : Buffer),
      reallocate H st = (st1, true) ∧ st1.fftInput = some bi ∧ st1.fftOutput = some bo
      ∧ st1.unicodeSupport = st.unicodeSupport
      ∧ st1.g.lastMagnitudes = st.g.lastMagnitudes
      ∧ (st1.g.lastMax = st.g.lastMax ∨ st1.g.lastMax = -1) := by
  rcases hr with ⟨h1, h2, h3⟩ | ⟨h1, h2, h3⟩
  · have hne : st.bufferSize ≠ st.prevBufferSize := by rw [hb]; exact h1
    have hre : reallocate H st
        = ({ g := { st.g with lastMax := -1 }, bufferSize := st.bufferSize,
             prevBufferSize := st.bufferSize, unicodeSupport := st.unicodeSupport,
             fftInput := some ⟨st.bufferSize, fun _ => (0, 0)⟩,
             fftOutput := some ⟨st.bufferSize, fun _ => (0, 0)⟩ }, true) := by
      simp only [reallocate, if_pos hne, h2, h3, freeVisuals_eq, Bool.not_true,
        Bool.false_eq_true, if_false]
    exact ⟨_, _, _, hre, rfl, rfl, rfl, rfl, Or.inr rfl⟩
  · have he : ¬ st.bufferSize ≠ st.prevBufferSize := by rw [hb]; exact not_not.mpr h1
    obtain ⟨bi, hbi⟩ := Option.isSome_iff_exists.mp h2
    obtain ⟨bo, hbo⟩ := Option.isSome_iff_exists.mp h3
    refine ⟨st, bi, bo, ?_, hbi, hbo, rfl, rfl, Or.inl rfl⟩
    simp only [reallocate, if_neg he]

/-- A frame with more than one row, a positive width, a positive buffer
size and ready buffers is rendered: `calcSpectrum` runs on a zeroed array
of `width / 2` bars and `printSpectrum` prints `height - 1` rows of it. -/
theorem drawSpectrumVisualizer_rendered (E : Extern) (H : Host) (st : Program)
    (height width : Int) (c : PixelData) (ind : Int) (upc : Bool)
    (h1 : 1 < height) (h2 : 0 < width) (h3 : 0 < H.getBufferSize) (hr : buffersReady H st) :
    ∃ (g1 : Globals) (fi fo : CBuf),
      g1.lastMagnitudes = st.g.lastMagnitudes
      ∧ (g1.lastMax = st.g.lastMax ∨ g1.lastMax = -1)
      ∧ (drawSpectrumVisualizer E H st height width c ind upc).2
          = FrameEnd.rendered (calcSpectrumPrinted H
              ++ printSpectrum st.unicodeSupport H.isPaused H.isStopped (height - 1)
                  (width / 2).toNat
                  (calcSpectrum E H (height - 1) (width / 2).toNat H.plan
                    ⟨fi, fo, fun _ => 0, g1⟩).2.magnitudes c ind upc)
      ∧ (drawSpectrumVisualizer E H st height width c ind upc).1.g
          = (calcSpectrum E H (height - 1) (width / 2).toNat H.plan
              ⟨fi, fo, fun _ => 0, g1⟩).2.g := by
  obtain ⟨st1, bi, bo, hre, hbi, hbo, hu, hl, hm⟩ :=
    reallocate_ready H { st with bufferSize := H.getBufferSize } rfl hr
  have c1 : ¬ (height - 1 ≤ 0 ∨ width ≤ 0) := by omega
  have c2 : ¬ (H.getBufferSize ≤ 0) := by omega
  have hd : Int.tdiv width 2 = width / 2 := Int.tdiv_eq_ediv (le_of_lt h2) (by norm_num)
  refine ⟨st1.g, bi.data, bo.data, hl, hm, ?_, ?_⟩
  · simp only [drawSpectrumVisualizer, if_neg c1, if_neg c2, hre, hbi, hbo, hd,
      forUpTo_store_zero, hu]
  · simp only [drawSpectrumVisualizer, if_neg c1, if_neg c2, hre, hbi, hbo, hd,
      forUpTo_store_zero]

/-! ## C13: the colour of a row -/

/-- C13, as the specification states it, fails: with the colour
`(1, 2, 3)`, not black, and `useProfileColors = true`, the block of one
row and one bar contains neither a call of `setDefaultTextColor` nor a
colour escape: the text colour is left as it is. -/
theorem C13_counterexample :
    printSpectrum false true false 1 1 (fun _ => 0) ⟨1, 2, 3⟩ 0 true
      = [Out.text "\n", Out.clearRestOfScreen, Out.text "\r", Out.printBlankSpaces 0,
         Out.text "  ", Out.text "\n ", Out.text "\r", Out.fflush]
    ∧ Out.setDefaultTextColor
        ∉ printSpectrum false true false 1 1 (fun _ => 0) ⟨1, 2, 3⟩ 0 true := by
  have h : printSpectrum false true false 1 1 (fun _ => 0) ⟨1, 2, 3⟩ 0 true
      = [Out.text "\n", Out.clearRestOfScreen, Out.text "\r", Out.printBlankSpaces 0,
         Out.text "  ", Out.text "\n ", Out.text "\r", Out.fflush] := by
    rw [printSpectrum_eq]
    rfl
  refine ⟨h, ?_⟩
  rw [h]
  decide

/-- C13, amended: in every row `j ≥ 0` that `printSpectrum` draws, if the
colour is black `(0, 0, 0)`, `setDefaultTextColor` is called and no colour
escape is written; if the colour is not black and `useProfileColors` is
true, neither happens; a colour escape is written exactly when the colour
is not black and `useProfileColors` is false, and `setDefaultTextColor` is
called exactly when the colour is black. -/
theorem C13_colour_rule (u p s : Bool) (height : Int) (width : Nat) (m : Nat → ℚ)
    (c : PixelData) (ind : Int) (upc : Bool) (j : Nat) :
    ((c.r = 0 ∧ c.g = 0 ∧ c.b = 0) →
        printColor height c upc (j : Int) [] = [Out.setDefaultTextColor])
    ∧ (¬ (c.r = 0 ∧ c.g = 0 ∧ c.b = 0) → upc = true → printColor height c upc (j : Int) [] = [])
    ∧ (¬ (c.r = 0 ∧ c.g = 0 ∧ c.b = 0) → upc = false →
        printColor height c upc (j : Int) []
          = [Out.rgb (increaseLuminosity c (rowBoost height (j : Int))).r
              (increaseLuminosity c (rowBoost height (j : Int))).g
              (increaseLuminosity c (rowBoost height (j : Int))).b])
    ∧ (Out.setDefaultTextColor ∈ printRow u p s height width m c ind upc (j : Int) []
        ↔ (c.r = 0 ∧ c.g = 0 ∧ c.b = 0))
    ∧ ((∃ r g b, Out.rgb r g b ∈ printRow u p s height width m c ind upc (j : Int) [])
        ↔ (¬ (c.r = 0 ∧ c.g = 0 ∧ c.b = 0) ∧ upc = false)) := by
  have hcell1 : Out.setDefaultTextColor ∉ rowCells u p s width m (j : Int) := by
    intro hx
    obtain ⟨t, ht⟩ := rowCells_text u p s width m (j : Int) _ hx
    exact Out.noConfusion ht
  have hcell2 : ∀ r g b, Out.rgb r g b ∉ rowCells u p s width m (j : Int) := by
    intro r g b hx
    obtain ⟨t, ht⟩ := rowCells_text u p s width m (j : Int) _ hx
    exact Out.noConfusion ht
  have hrow := printRow_eq u p s height width m c ind upc (j : Int) (Int.natCast_nonneg j) []
  by_cases hblack : c.r = 0 ∧ c.g = 0 ∧ c.b = 0
  · have hn : ¬ (c.r ≠ 0 ∨ c.g ≠ 0 ∨ c.b ≠ 0) := by
      obtain ⟨a, b, d⟩ := hblack
      simp [a, b, d]
    have hcol : printColor height c upc (j : Int) [] = [Out.setDefaultTextColor] := by
      simp only [printColor, if_neg hn, List.nil_append]
    refine ⟨fun _ => hcol, fun h => absurd hblack h, fun h => absurd hblack h, ?_, ?_⟩
    · rw [hrow, hcol]
      simp [hblack]
    · rw [hrow, hcol]
      constructor
      · rintro ⟨r, g, b, hx⟩
        simp only [List.nil_append, List.mem_append, List.mem_cons, List.mem_singleton,
          List.not_mem_nil, or_false] at hx
        rcases hx with ((hx | hx) | hx) | hx
        · rcases hx with hx | hx <;> exact Out.noConfusion hx
        · exact Out.noConfusion hx
        · exact absurd hx (hcell2 r g b)
        · exact Out.noConfusion hx
      · intro h
        exact absurd hblack h.1
  · have hn : c.r ≠ 0 ∨ c.g ≠ 0 ∨ c.b ≠ 0 := by
      by_contra hc
      push_neg at hc
      exact hblack hc
    cases upc with
    | true =>
      have hcol : printColor height c true (j : Int) [] = [] := by
        simp only [printColor, if_pos hn]
        rfl
      refine ⟨fun h => absurd h hblack, fun _ _ => hcol, fun _ h => Bool.noConfusion h, ?_, ?_⟩
      · rw [hrow, hcol]
        simp only [List.nil_append, List.append_nil, List.mem_append, List.mem_cons,
          List.mem_singleton, List.not_mem_nil, or_false]
        constructor
        · intro hx
          rcases hx with (hx | hx) | hx
          · rcases hx with hx | hx <;> exact Out.noConfusion hx
          · exact absurd hx hcell1
          · exact Out.noConfusion hx
        · intro h
          exact absurd h hblack
      · rw [hrow, hcol]
        constructor
        · rintro ⟨r, g, b, hx⟩
          simp only [List.nil_append, List.append_nil, List.mem_append, List.mem_cons,
            List.mem_singleton, List.not_mem_nil, or_false] at hx
          rcases hx with (hx | hx) | hx
          · rcases hx with hx | hx <;> exact Out.noConfusion hx
          · exact absurd hx (hcell2 r g b)
          · exact Out.noConfusion hx
        · intro h
          exact Bool.noConfusion h.2
    | false =>
      have hcol : printColor height c false (j : Int) []
          = [Out.rgb (increaseLuminosity c (rowBoost height (j : Int))).r
              (increaseLuminosity c (rowBoost height (j : Int))).g
              (increaseLuminosity c (rowBoost height (j : Int))).b] := by
        simp only [printColor, if_pos hn]
        rfl
      refine ⟨fun h => absurd h hblack, fun _ h => Bool.noConfusion h, fun _ _ => hcol, ?_, ?_⟩
      · rw [hrow, hcol]
        simp only [List.nil_append, List.mem_append, List.mem_cons, List.mem_singleton,
          List.not_mem_nil, or_false]
        constructor
        · intro hx
          rcases hx with ((hx | hx) | hx) | hx
          · rcases hx with hx | hx <;> exact Out.noConfusion hx
          · exact Out.noConfusion hx
          · exact absurd hx hcell1
          · exact Out.noConfusion hx
        · intro h
          exact absurd h hblack
      · rw [hrow, hcol]
        constructor
        · intro _
          exact ⟨hblack, rfl⟩
        · intro _
          refine ⟨(increaseLuminosity c (rowBoost height (j : Int))).r,
            (increaseLuminosity c (rowBoost height (j : Int))).g,
            (increaseLuminosity c (rowBoost height (j : Int))).b, ?_⟩
          simp

/-- C13, amended, at row 2 of three, two bars: the colour `(10, 20, 30)`
with profile colours writes no colour item, black selects the default
colour. -/
theorem C13_colour_rule_witness :
    printColor 3 ⟨10, 20, 30⟩ true ((2 : Nat) : Int) [] = []
    ∧ printColor 3 ⟨0, 0, 0⟩ true ((2 : Nat) : Int) [] = [Out.setDefaultTextColor] :=
  ⟨(C13_colour_rule false false false 3 2 (fun _ => 0) ⟨10, 20, 30⟩ 0 true 2).2.1
      (by decide) rfl,
   (C13_colour_rule false false false 3 2 (fun _ => 0) ⟨0, 0, 0⟩ 0 true 2).1
      (by decide)⟩

/-! ## C14: the rows and bars of a frame -/

/-- C14, as the specification states it, fails: from the initial globals,
with `rowCount = 1`, `columnWidth = 2`, a buffer size of 4800 and both
allocations succeeding, `drawSpectrumVisualizer` returns before it draws
anything: `height = height - 1` makes the row count 0. -/
theorem C14_counterexample :
    (drawSpectrumVisualizer ⟨fun x => x, fun _ _ => 1⟩
        ⟨4800, none, ma_format.ma_format_s16, false, false, true, true, fun b => b⟩
        Program.init 1 2 ⟨0, 0, 0⟩ 0 false).2 = FrameEnd.returned := by
  simp [drawSpectrumVisualizer]

/-- C14, amended: for every call `drawSpectrumVisualizer(rowCount,
columnWidth, …)` with `rowCount > 0`, `columnWidth > 0`, buffer size `> 0`
and the transform buffers ready (allocation succeeds), nothing is drawn
when `rowCount = 1`; when `rowCount > 1` the text block drawn has exactly
`rowCount - 1` rows, in the order `j = rowCount - 1` down to `1`, each
containing exactly `floor(columnWidth / 2)` bar cells. -/
theorem C14_rows_amended (E : Extern) (H : Host) (st : Program) (rowCount columnWidth : Int)
    (c : PixelData) (ind : Int) (upc : Bool)
    (h0 : 0 < rowCount) (h2 : 0 < columnWidth) (h3 : 0 < H.getBufferSize)
    (hr : buffersReady H st) :
    (rowCount = 1 →
      (drawSpectrumVisualizer E H st rowCount columnWidth c ind upc).2 = FrameEnd.returned)
    ∧ (1 < rowCount →
      ∃ mags : Nat → ℚ,
        (drawSpectrumVisualizer E H st rowCount columnWidth c ind upc).2
          = FrameEnd.rendered (calcSpectrumPrinted H
              ++ blockOf (rowCount - 1).toNat ind
                  (fun j => printColor (rowCount - 1) c upc (j : Int) [])
                  (fun j => rowCells st.unicodeSupport H.isPaused H.isStopped
                    (columnWidth / 2).toNat mags (j : Int)))
        ∧ ((rowsDownFrom (rowCount - 1).toNat).length : Int) = rowCount - 1
        ∧ (∀ j : Nat, j ∈ rowsDownFrom (rowCount - 1).toNat ↔ 1 ≤ (j : Int) ∧ (j : Int) ≤ rowCount - 1)
        ∧ ∀ j : Int,
            ((rowCells st.unicodeSupport H.isPaused H.isStopped (columnWidth / 2).toNat
              mags j).length : Int) = columnWidth / 2) := by
  constructor
  · intro h1
    subst h1
    simp [drawSpectrumVisualizer]
  · intro h1
    obtain ⟨g1, fi, fo, _, _, hout, _⟩ :=
      drawSpectrumVisualizer_rendered E H st rowCount columnWidth c ind upc h1 h2 h3 hr
    refine ⟨(calcSpectrum E H (rowCount - 1) (columnWidth / 2).toNat H.plan
      ⟨fi, fo, fun _ => 0, g1⟩).2.magnitudes, ?_, ?_, ?_, ?_⟩
    · rw [hout, printSpectrum_eq]
    · rw [rowsDownFrom_length]; omega
    · intro j
      rw [mem_rowsDownFrom]; omega
    · intro j
      rw [rowCells_length]
      have : 0 ≤ columnWidth / 2 := Int.ediv_nonneg (le_of_lt h2) (by norm_num)
      omega

/-- C14, amended, at a first frame of 3 rows and 4 columns: the block has
the two rows 2 and 1, of two cells each. -/
theorem C14_rows_amended_witness :
    ∃ mags : Nat → ℚ,
      (drawSpectrumVisualizer ⟨fun x => x, fun _ _ => 1⟩
          ⟨4800, none, ma_format.ma_format_s16, false, false, true, true, fun b => b⟩
          Program.init 3 4 ⟨0, 0, 0⟩ 0 false).2
        = FrameEnd.rendered (calcSpectrumPrinted
              ⟨4800, none, ma_format.ma_format_s16, false, false, true, true, fun b => b⟩
            ++ blockOf ((3 : Int) - 1).toNat 0
                (fun j => printColor (3 - 1) ⟨0, 0, 0⟩ false (j : Int) [])
                (fun j => rowCells Program.init.unicodeSupport false false
                  ((4 : Int) / 2).toNat mags (j : Int)))
      ∧ ((rowsDownFrom ((3 : Int) - 1).toNat).length : Int) = 3 - 1 := by
  obtain ⟨mags, h1, h2, _, _⟩ := (C14_rows_amended ⟨fun x => x, fun _ _ => 1⟩
    ⟨4800, none, ma_format.ma_format_s16, false, false, true, true, fun b => b⟩
    Program.init 3 4 ⟨0, 0, 0⟩ 0 false (by decide) (by decide) (by decide)
    (Or.inl ⟨by decide, rfl, rfl⟩)).2 (by decide)
  exact ⟨mags, h1, h2⟩

/-! ## C18: invalid geometry -/

/-- C18: for every call of `drawSpectrumVisualizer` with `height ≤ 0`, or
`width ≤ 0`, or a reported buffer size `≤ 0`, nothing is written to the
terminal, and `lastMax`, `lastMagnitudes`, `prevBufferSize` and both
transform buffers are left unchanged. -/
theorem C18_invalid_geometry (E : Extern) (H : Host) (st : Program) (height width : Int)
    (c : PixelData) (ind : Int) (upc : Bool)
    (h : height ≤ 0 ∨ width ≤ 0 ∨ H.getBufferSize ≤ 0) :
    (drawSpectrumVisualizer E H st height width c ind upc).2 = FrameEnd.returned
    ∧ (drawSpectrumVisualizer E H st height width c ind upc).1.g.lastMax = st.g.lastMax
    ∧ (drawSpectrumVisualizer E H st height width c ind upc).1.g.lastMagnitudes
        = st.g.lastMagnitudes
    ∧ (drawSpectrumVisualizer E H st height width c ind upc).1.prevBufferSize
        = st.prevBufferSize
    ∧ (drawSpectrumVisualizer E H st height width c ind upc).1.fftInput = st.fftInput
    ∧ (drawSpectrumVisualizer E H st height width c ind upc).1.fftOutput = st.fftOutput := by
  have hres : drawSpectrumVisualizer E H st height width c ind upc
      = ({ st with bufferSize := H.getBufferSize }, FrameEnd.returned) := by
    simp only [drawSpectrumVisualizer]
    by_cases c1 : height - 1 ≤ 0 ∨ width ≤ 0
    · rw [if_pos c1]
    · have c2 : H.getBufferSize ≤ 0 := by omega
      rw [if_neg c1, if_pos c2]
  rw [hres]
  exact ⟨rfl, rfl, rfl, rfl, rfl, rfl⟩

/-- C18 at a call with no rows, from a state with a recorded buffer size. -/
theorem C18_invalid_geometry_witness :
    (drawSpectrumVisualizer ⟨fun x => x, fun _ _ => 1⟩
        ⟨4800, none, ma_format.ma_format_s16, false, false, true, true, fun b => b⟩
        { Program.init with prevBufferSize := 1024 } 0 80 ⟨0, 0, 0⟩ 0 false).2
      = FrameEnd.returned
    ∧ (drawSpectrumVisualizer ⟨fun x => x, fun _ _ => 1⟩
        ⟨4800, none, ma_format.ma_format_s16, false, false, true, true, fun b => b⟩
        { Program.init with prevBufferSize := 1024 } 0 80 ⟨0, 0, 0⟩ 0 false).1.prevBufferSize
      = 1024 := by
  have h := C18_invalid_geometry ⟨fun x => x, fun _ _ => 1⟩
    ⟨4800, none, ma_format.ma_format_s16, false, false, true, true, fun b => b⟩
    { Program.init with prevBufferSize := 1024 } 0 80 ⟨0, 0, 0⟩ 0 false (Or.inl (le_refl _))
  exact ⟨h.1, h.2.2.2.1⟩

/-! ## Lemmas on the error paths of `calc` -/

theorem normalizeSample_unsupported (bitDepth sample : Int)
    (hd : ¬ (bitDepth = 8 ∨ bitDepth = 16 ∨ bitDepth = 24 ∨ bitDepth = 32)) :
    normalizeSample bitDepth sample = none := by
  push_neg at hd
  simp [normalizeSample, hd.1, hd.2.1, hd.2.2.1, hd.2.2.2]

/-- With a NULL audio buffer `calc` changes nothing. -/
theorem calc_null (E : Extern) (bufferSize height : Int) (numBars : Nat) (bitDepth : Int)
    (plan : CBuf → CBuf) (s : CalcState) :
    calc_ E bufferSize height numBars none bitDepth plan s = s := rfl

/-- At an unsupported bit depth, with at least one sample to read, `calc`
returns from the first turn of the sample loop and changes nothing. -/
theorem calc_unsupported (E : Extern) (bufferSize height : Int) (numBars : Nat)
    (audioBuffer : Nat → Int) (bitDepth : Int) (plan : CBuf → CBuf) (s : CalcState)
    (hb : 0 < bufferSize)
    (hd : ¬ (bitDepth = 8 ∨ bitDepth = 16 ∨ bitDepth = 24 ∨ bitDepth = 32)) :
    calc_ E bufferSize height numBars (some audioBuffer) bitDepth plan s = s := by
  obtain ⟨n, hn⟩ : ∃ n, bufferSize.toNat = n + 1 := ⟨bufferSize.toNat - 1, by omega⟩
  have h0 : ¬ (((0 : Nat) : Int) ≥ bufferSize) := by push_cast; omega
  simp only [calc_, hn, fillInput, if_neg h0, normalizeSample_unsupported _ _ hd]

/-- A bar of magnitude 0 is a blank cell in every row `j ≥ 1`, with and
without Unicode. -/
theorem printCell_zero (u : Bool) (j : Int) (hj : 1 ≤ j) : printCell u j 0 = "  " := by
  have h0 : j ≥ 0 := by omega
  have h1 : ¬ ((0 : ℚ) ≥ (j : ℚ)) := by
    have : (1 : ℚ) ≤ (j : ℚ) := by exact_mod_cast hj
    linarith
  simp only [printCell, if_pos h0, if_neg h1]
  split_ifs
  · have hd := firstDecimalDigit_eq 0 (le_refl _)
    rw [hd]
    norm_num
    decide
  · rfl

theorem rowCells_zero (u p s : Bool) (width : Nat) (j : Int) (hj : 1 ≤ j) :
    rowCells u p s width (fun _ => 0) j = List.replicate width (Out.text "  ") := by
  simp only [rowCells, printCell_zero u j hj]
  split_ifs
  · rfl
  · induction width with
    | zero => rfl
    | succ n ih => rw [List.range_succ, List.map_append, ih, List.replicate_succ']; rfl

/-- Two blocks with the same colour items and the same cells in the rows
`1..n` are equal. -/
theorem blockOf_congr (n : Nat) (ind : Int) (colour cells cells1 : Nat → List Out)
    (h : ∀ j, 1 ≤ j → j ≤ n → cells j = cells1 j) :
    blockOf n ind colour cells = blockOf n ind colour cells1 := by
  simp only [blockOf]
  congr 2
  apply List.flatMap_congr
  intro j hj
  rw [mem_rowsDownFrom] at hj
  rw [h j hj.1 hj.2]

/-- A block printed from an array of zeros has blank cells only. -/
theorem printSpectrum_zero (u p s : Bool) (height : Int) (width : Nat) (c : PixelData)
    (ind : Int) (upc : Bool) :
    printSpectrum u p s height width (fun _ => 0) c ind upc
      = blockOf height.toNat ind (fun j => printColor height c upc (j : Int) [])
          (fun _ => List.replicate width (Out.text "  ")) := by
  rw [printSpectrum_eq]
  apply blockOf_congr
  intro j h1 _
  exact rowCells_zero u p s width (j : Int) (by exact_mod_cast h1)

/-! ## C16: input errors -/

/-- C16: when the audio buffer is NULL, or the format is unknown, or the
bit depth passed to `calc` is not one of 8, 16, 24, 32 (the buffer size
being positive, as it is wherever `drawSpectrumVisualizer` gets to
`calc`), `calc` and `calcSpectrum` leave the magnitude series, `lastMagnitudes`
and `lastMax` unchanged (`calcSpectrum` returning `-1` for the unknown
format); a block printed from the zeroed series has blank cells only,
under both Unicode settings, and so has the frame that
`drawSpectrumVisualizer` draws when the buffer is NULL or the format
unknown, `lastMagnitudes` being then as before the frame. -/
theorem C16_input_errors (E : Extern) (H : Host) (st : Program) (height width : Int)
    (c : PixelData) (ind : Int) (upc : Bool)
    (h1 : 1 < height) (h2 : 0 < width) (h3 : 0 < H.getBufferSize) (hr : buffersReady H st) :
    (∀ (bufferSize rows : Int) (numBars : Nat) (bitDepth : Int) (plan : CBuf → CBuf)
        (s : CalcState), calc_ E bufferSize rows numBars none bitDepth plan s = s)
    ∧ (∀ (bufferSize rows : Int) (numBars : Nat) (audioBuffer : Nat → Int) (bitDepth : Int)
        (plan : CBuf → CBuf) (s : CalcState), 0 < bufferSize →
        ¬ (bitDepth = 8 ∨ bitDepth = 16 ∨ bitDepth = 24 ∨ bitDepth = 32) →
        calc_ E bufferSize rows numBars (some audioBuffer) bitDepth plan s = s)
    ∧ (∀ (rows : Int) (numBars : Nat) (plan : CBuf → CBuf) (s : CalcState),
        H.getCurrentFormat = ma_format.ma_format_unknown →
        calcSpectrum E H rows numBars plan s = (-1, s))
    ∧ (∀ (rows : Int) (numBars : Nat) (plan : CBuf → CBuf) (s : CalcState),
        H.getAudioBuffer = none → (calcSpectrum E H rows numBars plan s).2 = s)
    ∧ (∀ (u p s : Bool) (rows : Int) (numBars : Nat),
        printSpectrum u p s rows numBars (fun _ => 0) c ind upc
          = blockOf rows.toNat ind (fun j => printColor rows c upc (j : Int) [])
              (fun _ => List.replicate numBars (Out.text "  ")))
    ∧ ((H.getAudioBuffer = none ∨ H.getCurrentFormat = ma_format.ma_format_unknown) →
        (drawSpectrumVisualizer E H st height width c ind upc).2
            = FrameEnd.rendered (calcSpectrumPrinted H
                ++ blockOf (height - 1).toNat ind
                    (fun j => printColor (height - 1) c upc (j : Int) [])
                    (fun _ => List.replicate (width / 2).toNat (Out.text "  ")))
        ∧ (drawSpectrumVisualizer E H st height width c ind upc).1.g.lastMagnitudes
            = st.g.lastMagnitudes
        ∧ ((drawSpectrumVisualizer E H st height width c ind upc).1.g.lastMax = st.g.lastMax
            ∨ (drawSpectrumVisualizer E H st height width c ind upc).1.g.lastMax = -1)) := by
  have hspec : ∀ (rows : Int) (numBars : Nat) (plan : CBuf → CBuf) (s : CalcState),
      (H.getAudioBuffer = none ∨ H.getCurrentFormat = ma_format.ma_format_unknown) →
      (calcSpectrum E H rows numBars plan s).2 = s := by
    intro rows numBars plan s h
    simp only [calcSpectrum]
    split_ifs with hf
    · rfl
    · rcases h with h | h
      · simp only [h, calc_null]
      · exact absurd h hf
  refine ⟨fun _ _ _ _ _ _ => rfl, ?_, ?_, fun rows numBars plan s h => hspec rows numBars plan s
    (Or.inl h), fun u p s rows numBars => printSpectrum_zero u p s rows numBars c ind upc, ?_⟩
  · intro bufferSize rows numBars audioBuffer bitDepth plan s hb hd
    exact calc_unsupported E bufferSize rows numBars audioBuffer bitDepth plan s hb hd
  · intro rows numBars plan s hf
    simp only [calcSpectrum, if_pos hf]
  · intro herr
    obtain ⟨g1, fi, fo, hl, hm, hout, hg⟩ :=
      drawSpectrumVisualizer_rendered E H st height width c ind upc h1 h2 h3 hr
    rw [hspec _ _ _ _ herr] at hout hg
    refine ⟨?_, ?_, ?_⟩
    · rw [hout, printSpectrum_zero]
    · rw [hg]; exact hl
    · rw [hg]; exact hm

/-- C16 at a first frame of 3 rows and 4 columns with a NULL audio buffer:
`calc` prints its message, then the block has two rows of two blank
cells. -/
theorem C16_input_errors_witness :
    (drawSpectrumVisualizer ⟨fun x => x, fun _ _ => 1⟩
        ⟨4800, none, ma_format.ma_format_s16, false, false, true, true, fun b => b⟩
        Program.init 3 4 ⟨0, 0, 0⟩ 0 false).2
      = FrameEnd.rendered
          [Out.text "Audio buffer is NULL.\n", Out.text "\n", Out.clearRestOfScreen,
           Out.text "\r", Out.printBlankSpaces 0, Out.setDefaultTextColor,
           Out.text "  ", Out.text "  ", Out.text "\n ",
           Out.text "\r", Out.printBlankSpaces 0, Out.setDefaultTextColor,
           Out.text "  ", Out.text "  ", Out.text "\n ",
           Out.text "\r", Out.fflush] := by
  rw [((C16_input_errors ⟨fun x => x, fun _ _ => 1⟩
    ⟨4800, none, ma_format.ma_format_s16, false, false, true, true, fun b => b⟩
    Program.init 3 4 ⟨0, 0, 0⟩ 0 false (by decide) (by decide) (by decide)
    (Or.inl ⟨by decide, rfl, rfl⟩)).2.2.2.2.2 (Or.inl rfl)).1]
  rfl

/-! ## C17: the cells of `lastMagnitudes` beyond the bar count -/

/-- A sequence of frames that all have at most `i` bars leaves
`lastMagnitudes[i]` as it was. -/
theorem runFrames_beyond (fs : List Frame) (g : Globals) (i : Nat)
    (h : ∀ f, f ∈ fs → f.numBars ≤ i) :
    (runFrames g fs).lastMagnitudes i = g.lastMagnitudes i := by
  induction fs generalizing g with
  | nil => rfl
  | cons f fs ih =>
    simp only [runFrames]
    rw [ih _ (fun f1 hf1 => h f1 (List.mem_cons_of_mem _ hf1)),
      (updateMagnitudes_apply g f.height f.numBars f.maxMagnitude f.magnitudes i).2]
    have hi : ¬ i < f.numBars := not_lt.mpr (h f (List.mem_cons_self _ _))
    rw [if_neg hi]

theorem runFrames_append (fs gs : List Frame) (g : Globals) :
    runFrames g (fs ++ gs) = runFrames (runFrames g fs) gs := by
  induction fs generalizing g with
  | nil => rfl
  | cons f fs ih => exact ih _

/-- C17, as the specification states it, fails: after a frame of two bars
has left `lastMagnitudes[1] = 10` and a frame of one bar has followed, a
frame of two bars reads `lastMagnitudes[1] = 10`, not `0`, in its decay
stage: its silent bar 1 ends at `8`. -/
theorem C17_counterexample :
    (runFrames Globals.init
        [⟨10, 2, 1, ofList [1, 1]⟩, ⟨10, 1, 1, ofList [1]⟩]).lastMagnitudes 1 = 10
    ∧ (updateMagnitudes
        (runFrames Globals.init [⟨10, 2, 1, ofList [1, 1]⟩, ⟨10, 1, 1, ofList [1]⟩])
        10 2 1 (ofList [0, 0])).1 1 = 8 := by
  have hlast : (runFrames Globals.init
      [⟨10, 2, 1, ofList [1, 1]⟩, ⟨10, 1, 1, ofList [1]⟩]).lastMagnitudes 1 = 10 := by
    simp only [runFrames]
    rw [(updateMagnitudes_apply _ _ _ _ _ _).2, (updateMagnitudes_apply _ _ _ _ _ _).2]
    norm_num [movingAverage_eq, ofList, Globals.init]
  refine ⟨hlast, ?_⟩
  rw [(updateMagnitudes_apply _ _ _ _ _ _).1, hlast]
  norm_num [movingAverage_eq, ofList]

/-- C17, amended: for every sequence of frames with varying bar counts and
every index `i`, a frame with at most `i` bars leaves `lastMagnitudes[i]`
as it was; so the value that the decay stage of a later frame reads at `i`
is the one stored by the last earlier frame with more than `i` bars (here
the last frame of `fs`, the frames of `gs` having at most `i` bars), and it
is `0` when no earlier frame had more than `i` bars. -/
theorem C17_stale_values (fs gs : List Frame) (i : Nat)
    (h : ∀ f, f ∈ gs → f.numBars ≤ i) :
    (runFrames Globals.init (fs ++ gs)).lastMagnitudes i
        = (runFrames Globals.init fs).lastMagnitudes i
    ∧ (runFrames Globals.init gs).lastMagnitudes i = 0
    ∧ ∀ (f : Frame), i < f.numBars →
        (updateMagnitudes (runFrames Globals.init (fs ++ gs))
            f.height f.numBars f.maxMagnitude f.magnitudes).1 i
          = max (min (smoothMagnitudes f.numBars f.magnitudes i / f.maxMagnitude) 1
                  * (f.height : ℚ))
              ((runFrames Globals.init fs).lastMagnitudes i * (8 / 10)) := by
  have h1 : (runFrames Globals.init (fs ++ gs)).lastMagnitudes i
      = (runFrames Globals.init fs).lastMagnitudes i := by
    rw [runFrames_append]
    exact runFrames_beyond gs _ i h
  refine ⟨h1, ?_, ?_⟩
  · rw [runFrames_beyond gs _ i h]
    rfl
  · intro f hf
    rw [(updateMagnitudes_apply _ _ _ _ _ _).1, if_pos hf, h1, smoothMagnitudes_apply, if_pos hf]

/-- C17, amended, on the frames of the counterexample: the frame of one
bar leaves `lastMagnitudes[1]` as the frame of two bars stored it. -/
theorem C17_stale_values_witness :
    (runFrames Globals.init
        ([⟨10, 2, 1, ofList [1, 1]⟩] ++ [⟨10, 1, 1, ofList [1]⟩])).lastMagnitudes 1
      = (runFrames Globals.init [⟨10, 2, 1, ofList [1, 1]⟩]).lastMagnitudes 1 :=
  (C17_stale_values [⟨10, 2, 1, ofList [1, 1]⟩] [⟨10, 1, 1, ofList [1]⟩] 1
    (by
      intro f hf
      simp only [List.mem_singleton] at hf
      subst hf
      exact le_refl _)).1

/-! ## C19: `lastMax` keeps the sentinel -/

/-- With the sentinel in `lastMax`, the smoother's part of `calc` is
`updateMagnitudes` with the frame's maximum as divisor, and `lastMax`
keeps the sentinel. -/
theorem calcTail_sentinel (g : Globals) (height : Int) (numBars : Nat) (m : Nat → ℚ)
    (h : g.lastMax < 0) :
    calcTail g height numBars m = updateMagnitudes g height numBars (frameMax numBars m) m
    ∧ (calcTail g height numBars m).2.lastMax = g.lastMax := by
  have e : calcTail g height numBars m
      = updateMagnitudes g height numBars (frameMax numBars m) m := by
    simp only [calcTail, calcMaxMagnitude_sentinel g numBars m h]
  exact ⟨e, by rw [e]; rfl⟩

theorem calc_sentinel (E : Extern) (bufferSize height : Int) (numBars : Nat)
    (audioBuffer : Option (Nat → Int)) (bitDepth : Int) (plan : CBuf → CBuf) (s : CalcState)
    (h : s.g.lastMax < 0) :
    (calc_ E bufferSize height numBars audioBuffer bitDepth plan s).g.lastMax = s.g.lastMax := by
  cases audioBuffer with
  | none => rfl
  | some ab =>
    simp only [calc_]
    split
    · rfl
    · exact (calcTail_sentinel s.g height numBars _ h).2

theorem calcSpectrum_sentinel (E : Extern) (H : Host) (height : Int) (numBars : Nat)
    (plan : CBuf → CBuf) (s : CalcState) (h : s.g.lastMax < 0) :
    (calcSpectrum E H height numBars plan s).2.g.lastMax = s.g.lastMax := by
  simp only [calcSpectrum]
  split_ifs
  · rfl
  · exact calc_sentinel E _ _ _ _ _ _ s h

theorem reallocate_sentinel (H : Host) (st : Program) (h : st.g.lastMax = -1) :
    (reallocate H st).1.g.lastMax = -1 := by
  simp only [reallocate, freeVisuals_eq]
  split_ifs <;> first | rfl | exact h

theorem drawSpectrumVisualizer_sentinel (E : Extern) (H : Host) (st : Program)
    (height width : Int) (c : PixelData) (ind : Int) (upc : Bool) (h : st.g.lastMax = -1) :
    (drawSpectrumVisualizer E H st height width c ind upc).1.g.lastMax = -1 := by
  have hre := reallocate_sentinel H { st with bufferSize := H.getBufferSize } h
  simp only [drawSpectrumVisualizer]
  split_ifs
  · exact h
  · exact h
  · rcases hr : reallocate H { st with bufferSize := H.getBufferSize } with ⟨st1, b⟩
    rw [hr] at hre
    cases b with
    | false => exact hre
    | true =>
      simp only []
      rcases hi : st1.fftInput with _ | fi <;> rcases ho : st1.fftOutput with _ | fo
      · exact hre
      · exact hre
      · exact hre
      · simp only []
        rw [calcSpectrum_sentinel]
        · exact hre
        · show st1.g.lastMax < 0
          rw [show st1.g.lastMax = -1 from hre]
          norm_num

/-- Every call keeps the sentinel in `lastMax`. -/
theorem runOp_sentinel (E : Extern) (st : Program) (op : Op) (h : st.g.lastMax = -1) :
    (runOp E st op).g.lastMax = -1 := by
  have hneg : st.g.lastMax < 0 := by rw [h]; norm_num
  cases op with
  | initVisuals locale =>
    simp only [runOp, initVisuals]
    split_ifs <;> exact h
  | drawSpectrumVisualizer H height width c ind upc =>
    exact drawSpectrumVisualizer_sentinel E H st height width c ind upc h
  | calcSpectrum H height numBars fi fo m plan =>
    simp only [runOp]
    rw [calcSpectrum_sentinel E H height numBars plan _ hneg]
    exact h
  | calc_ bufferSize height numBars ab bitDepth fi fo m plan =>
    simp only [runOp]
    rw [calc_sentinel E bufferSize height numBars ab bitDepth plan _ hneg]
    exact h
  | calcMaxMagnitude numBars m =>
    simp only [runOp, calcMaxMagnitude_sentinel st.g numBars m hneg]
    exact h

theorem runOps_sentinel (E : Extern) (ops : List Op) (st : Program) (h : st.g.lastMax = -1) :
    (runOps E st ops).g.lastMax = -1 := by
  induction ops generalizing st with
  | nil => exact h
  | cons op ops ih => exact ih _ (runOp_sentinel E st op h)

/-- C19: from the initial globals (`lastMax = -1`), after any sequence of
calls of `initVisuals`, `drawSpectrumVisualizer`, `calcSpectrum`, `calc`
and `calcMaxMagnitude`, with any arguments, `lastMax` is still `-1`; so
`calcMaxMagnitude` then returns the maximum of the frame it is given and
writes no global: the exponential-smoothing assignment is never
executed. -/
theorem C19_lastMax_sentinel (E : Extern) (ops : List Op) :
    (runOps E Program.init ops).g.lastMax = -1
    ∧ ∀ (numBars : Nat) (magnitudes : Nat → ℚ),
        calcMaxMagnitude (runOps E Program.init ops).g numBars magnitudes
          = (frameMax numBars magnitudes, (runOps E Program.init ops).g) := by
  have h := runOps_sentinel E ops Program.init rfl
  refine ⟨h, ?_⟩
  intro numBars magnitudes
  exact calcMaxMagnitude_sentinel _ numBars magnitudes (by rw [h]; norm_num)

/-! ## C20: the divisor of the normalisation -/

/-- On a non-NULL buffer at a supported bit depth, `calc` runs the
transform on the windowed input `fi` and hands the extracted series to the
smoother. -/
theorem calc_supported (E : Extern) (bufferSize height : Int) (numBars : Nat)
    (audioBuffer : Nat → Int) (bitDepth : Int) (plan : CBuf → CBuf) (s : CalcState)
    (hd : bitDepth = 8 ∨ bitDepth = 16 ∨ bitDepth = 24 ∨ bitDepth = 32) :
    ∃ fi : CBuf,
      calc_ E bufferSize height numBars (some audioBuffer) bitDepth plan s
        = { fftInput := fi, fftOutput := plan fi,
            magnitudes := (calcTail s.g height numBars
              (extractMagnitudes E numBars bufferSize.toNat (plan fi) s.magnitudes)).1,
            g := (calcTail s.g height numBars
              (extractMagnitudes E numBars bufferSize.toNat (plan fi) s.magnitudes)).2 } := by
  obtain ⟨b, hb⟩ := fillInput_supported audioBuffer bitDepth bufferSize hd
    bufferSize.toNat 0 0 s.fftInput (by omega)
  rw [Nat.zero_add] at hb
  exact ⟨applyWindow E bufferSize.toNat (padInput bufferSize bufferSize.toNat b), by
    simp only [calc_, hb]⟩

/-- The frame's maximum is positive exactly when some bar is. -/
theorem frameMax_pos_iff (n : Nat) (m : Nat → ℚ) :
    0 < frameMax n m ↔ ∃ i, i < n ∧ 0 < m i := by
  constructor
  · intro h
    rcases frameMax_attained n m with h0 | ⟨i, hi, hv⟩
    · rw [h0] at h; exact absurd h (lt_irrefl _)
    · exact ⟨i, hi, by rw [hv]; exact h⟩
  · rintro ⟨i, hi, hv⟩
    exact lt_of_lt_of_le hv (le_frameMax n m i hi)

/-- C20, as the specification states it, fails: on a silent input (four
16-bit samples `0`, a transform output of zeros, two bars, the initial
globals) `calc` reaches `updateMagnitudes` with the divisor
`maxMagnitude = 0`, the value that `calcMaxMagnitude` returns. -/
theorem C20_counterexample :
    (calc_ ⟨fun x => (Nat.sqrt x.num.toNat : ℚ), fun _ _ => 1⟩ 4 5 2 (some (fun _ => 0)) 16
        (fun _ _ => (0, 0))
        ⟨fun _ => (0, 0), fun _ => (0, 0), fun _ => 0, Globals.init⟩).magnitudes
      = (updateMagnitudes Globals.init 5 2 0
          (extractMagnitudes ⟨fun x => (Nat.sqrt x.num.toNat : ℚ), fun _ _ => 1⟩ 2
            ((4 : Int).toNat) (fun _ => (0, 0)) (fun _ => 0))).1
    ∧ (calcMaxMagnitude Globals.init 2
        (extractMagnitudes ⟨fun x => (Nat.sqrt x.num.toNat : ℚ), fun _ _ => 1⟩ 2
          ((4 : Int).toNat) (fun _ => (0, 0)) (fun _ => 0))).1 = 0 := by
  have hs : Globals.init.lastMax < 0 := by norm_num [Globals.init]
  have hm : frameMax 2
      (extractMagnitudes ⟨fun x => (Nat.sqrt x.num.toNat : ℚ), fun _ _ => 1⟩ 2
        ((4 : Int).toNat) (fun _ => (0, 0)) (fun _ => 0)) = 0 := by
    simp only [frameMax, forUpTo, extractMagnitudes_apply]
    norm_num
  constructor
  · obtain ⟨fi, hfi⟩ := calc_supported ⟨fun x => (Nat.sqrt x.num.toNat : ℚ), fun _ _ => 1⟩
      4 5 2 (fun _ => 0) 16 (fun _ _ => (0, 0))
      ⟨fun _ => (0, 0), fun _ => (0, 0), fun _ => 0, Globals.init⟩ (by norm_num)
    rw [hfi]
    simp only []
    rw [(calcTail_sentinel Globals.init 5 2 _ hs).1, hm]
  · rw [calcMaxMagnitude_sentinel _ _ _ hs]
    exact hm

/-- C20, amended: in every frame in which `calc` reaches `updateMagnitudes`
with `lastMax` at the sentinel (the only value it has in the program), the
divisor is the value `calcMaxMagnitude` returns, the largest of `0` and
the raw magnitudes of the frame; it is never negative, it is strictly
positive exactly when some bar `i < numBars` has a positive raw magnitude,
and it is `0` when all the raw magnitudes are `0` (silent input). -/
theorem C20_divisor (g : Globals) (height : Int) (numBars : Nat) (raw : Nat → ℚ)
    (hs : g.lastMax < 0) :
    calcTail g height numBars raw
        = updateMagnitudes g height numBars (calcMaxMagnitude g numBars raw).1 raw
    ∧ (calcMaxMagnitude g numBars raw).1 = frameMax numBars raw
    ∧ 0 ≤ (calcMaxMagnitude g numBars raw).1
    ∧ (0 < (calcMaxMagnitude g numBars raw).1 ↔ ∃ i, i < numBars ∧ 0 < raw i)
    ∧ ((∀ i, i < numBars → raw i = 0) → (calcMaxMagnitude g numBars raw).1 = 0) := by
  have e : (calcMaxMagnitude g numBars raw).1 = frameMax numBars raw := by
    rw [calcMaxMagnitude_sentinel g numBars raw hs]
  rw [e]
  refine ⟨(calcTail_sentinel g height numBars raw hs).1, rfl, frameMax_nonneg _ _,
    frameMax_pos_iff _ _, ?_⟩
  intro hz
  rcases frameMax_attained numBars raw with h0 | ⟨i, hi, hv⟩
  · exact h0
  · rw [← hv]; exact hz i hi

/-- C20, amended, at the initial globals: the series `[0, 3]` gives the
divisor `3`, the silent series `[0, 0]` the divisor `0`. -/
theorem C20_divisor_witness :
    (calcMaxMagnitude Globals.init 2 (ofList [0, 3])).1 = 3
    ∧ (calcMaxMagnitude Globals.init 2 (ofList [0, 0])).1 = 0 := by
  have hs : Globals.init.lastMax < 0 := by norm_num [Globals.init]
  refine ⟨?_, ?_⟩
  · rw [(C20_divisor Globals.init 5 2 (ofList [0, 3]) hs).2.1]
    norm_num [frameMax, forUpTo, ofList]
  · apply (C20_divisor Globals.init 5 2 (ofList [0, 0]) hs).2.2.2.2
    intro i hi
    interval_cases i <;> norm_num [ofList]

/-! ## C15: the transform buffers -/

/-- C15 on the code: a first frame with buffer size 4800 allocates both
buffers; a second frame reports 1024 and its first `fftwf_malloc` fails: it
renders nothing and leaves both buffers NULL, but `prevBufferSize` is
still 4800; a third frame that reports 4800 again finds
`bufferSize == prevBufferSize`, does not allocate, and reaches the plan
step of line 398 with both buffers NULL. -/
theorem C15_no_retry (E : Extern) :
    (drawSpectrumVisualizer E
        ⟨1024, none, ma_format.ma_format_s16, false, false, false, true, fun b => b⟩
        (runDraws E Program.init
          [(⟨4800, none, ma_format.ma_format_s16, false, false, true, true, fun b => b⟩, 5, 4)])
        5 4 ⟨0, 0, 0⟩ 0 false).2 = FrameEnd.returned
    ∧ (runDraws E Program.init
        [(⟨4800, none, ma_format.ma_format_s16, false, false, true, true, fun b => b⟩, 5, 4),
         (⟨1024, none, ma_format.ma_format_s16, false, false, false, true, fun b => b⟩, 5, 4)]
        ).fftInput.isSome = false
    ∧ (runDraws E Program.init
        [(⟨4800, none, ma_format.ma_format_s16, false, false, true, true, fun b => b⟩, 5, 4),
         (⟨1024, none, ma_format.ma_format_s16, false, false, false, true, fun b => b⟩, 5, 4)]
        ).fftOutput.isSome = false
    ∧ (runDraws E Program.init
        [(⟨4800, none, ma_format.ma_format_s16, false, false, true, true, fun b => b⟩, 5, 4),
         (⟨1024, none, ma_format.ma_format_s16, false, false, false, true, fun b => b⟩, 5, 4)]
        ).prevBufferSize = 4800
    ∧ (drawSpectrumVisualizer E
        ⟨4800, none, ma_format.ma_format_s16, false, false, true, true, fun b => b⟩
        (runDraws E Program.init
          [(⟨4800, none, ma_format.ma_format_s16, false, false, true, true, fun b => b⟩, 5, 4),
           (⟨1024, none, ma_format.ma_format_s16, false, false, false, true, fun b => b⟩, 5, 4)])
        5 4 ⟨0, 0, 0⟩ 0 false).2 = FrameEnd.nullBuffer := by
  refine ⟨rfl, rfl, rfl, rfl, rfl⟩

end Visuals
